import Mathlib

/-!
# Verification of the homes-scraper core (src/script.py)

A shallow embedding of the scraper's core logic in Lean 4, with theorems
checking the specification's claims against it.

Modelling conventions:
* Python strings are `String` / `List Char`; every Python string operation
  used by the script (`strip`, `split`, `lower`, `replace`, `in`,
  `' '.join`) is re-implemented below on `List Char`, restricted to ASCII
  semantics (the script's markers and price texts are ASCII).
* Python numbers are exact: `int` is `Int`, `float` is `ℚ`.  The script's
  float values all arise from parsing short decimal literals, which are
  exact in IEEE doubles, so `ℚ` is a faithful model for the properties
  proved here.
* Fallible Python code is `Option`: `none` models a raised exception at
  the point the script would raise (or, where the script catches it, the
  caught-and-defaulted outcome, as noted at each definition).
* A parsed HTML document (BeautifulSoup soup) is modelled as the record of
  query results the script asks of it: each `find`/`find_all` the script
  performs is a field.  Network responses are supplied by an oracle
  `ℕ → FetchResult` indexed by the order GET requests are issued.
-/

/-! ## Character classes and basic list-of-char utilities -/

/-- ASCII decimal digit, the model of the regex class `\d` and of
`str.isdigit` as used on price and detail texts. -/
def pyIsDigit (c : Char) : Bool := '0' ≤ c && c ≤ '9'

/-- ASCII whitespace as recognised by Python's `str.strip`, `str.split()`
and the regex class `\s` (space, tab, newline, carriage return, form feed,
vertical tab). -/
def pyIsSpace (c : Char) : Bool :=
  c = ' ' || c = '\t' || c = '\n' || c = '\r' || c = '\x0b' || c = '\x0c'

/-- `s.strip()`: drop whitespace from both ends. -/
def pyStripL (cs : List Char) : List Char :=
  ((cs.dropWhile pyIsSpace).reverse.dropWhile pyIsSpace).reverse

def pyStrip (s : String) : String := String.mk (pyStripL s.data)

/-- Does `cs` start with `pat`? (Helper for substring containment and
`str.split(sep)`.) -/
def startsWithL : List Char → List Char → Bool
  | [], _ => true
  | _ :: _, [] => false
  | p :: ps, c :: cs => p = c && startsWithL ps cs

/-- Python's substring containment `pat in s`. -/
def containsSubL (pat : List Char) : List Char → Bool
  | [] => startsWithL pat []
  | c :: cs => startsWithL pat (c :: cs) || containsSubL pat cs

def pyContains (pat s : String) : Bool := containsSubL pat.data s.data

/-- `str.split(sep)` for a nonempty separator `pat`, splitting at every
leftmost non-overlapping occurrence.  `acc` is the current chunk, reversed;
the fuel argument is structural so the definition evaluates by reduction
(each step consumes at least one input character, so `cs.length + 1` fuel
always suffices). -/
def splitOnSubAux (pat : List Char) : ℕ → List Char → List Char → List (List Char)
  | 0, acc, cs => [acc.reverse ++ cs]
  | _ + 1, acc, [] => [acc.reverse]
  | fuel + 1, acc, c :: cs =>
    if startsWithL pat (c :: cs) then
      acc.reverse :: splitOnSubAux pat fuel [] (cs.drop (pat.length - 1))
    else
      splitOnSubAux pat fuel (c :: acc) cs

/-- `s.split(sep)` (Python, nonempty separator). -/
def pySplitOn (s sep : String) : List String :=
  match sep.data with
  | [] => [s]
  | pat => (splitOnSubAux pat (s.data.length + 1) [] s.data).map String.mk

/-- `s.replace(old, new)` (Python): replace every occurrence. -/
def pyReplace (s old new : String) : String :=
  String.intercalate new (pySplitOn s old)

/-- Whitespace-delimited runs of `cs`, the model of Python's `s.split()`
with no separator: maximal runs of non-whitespace characters, empties
dropped.  `acc` is the current run, reversed. -/
def pySplitWsAux : List Char → List Char → List (List Char)
  | acc, [] => if acc.isEmpty then [] else [acc.reverse]
  | acc, c :: cs =>
    if pyIsSpace c then
      if acc.isEmpty then pySplitWsAux [] cs else acc.reverse :: pySplitWsAux [] cs
    else pySplitWsAux (c :: acc) cs

/-- Python `s.split()` (no separator argument). -/
def pySplitWs (s : String) : List String :=
  (pySplitWsAux [] s.data).map String.mk

/-- Python `' '.join(parts)`. -/
def pyJoinSpace : List String → String
  | [] => ""
  | [s] => s
  | s :: rest => s ++ " " ++ pyJoinSpace rest

/-- Python `s.lower()` (ASCII). -/
def pyLower (s : String) : String := String.mk (s.data.map Char.toLower)

/-- The maximal leading digit run and the remainder. -/
def takeDigitsL (cs : List Char) : List Char × List Char :=
  (cs.takeWhile pyIsDigit, cs.dropWhile pyIsDigit)

/-- The natural number denoted by a digit string (most significant first). -/
def digitsVal (ds : List Char) : ℕ :=
  ds.foldl (fun a c => 10 * a + (c.toNat - 48)) 0

/-- Python `int(s)`: optional surrounding whitespace, optional sign, then a
nonempty digit run (underscored literals and non-ASCII digits are not
modelled). `none` models `ValueError`. -/
def pyInt? (s : String) : Option Int :=
  let cs := pyStripL s.data
  let (sgn, cs1) : Int × List Char :=
    match cs with
    | '-' :: r => (-1, r)
    | '+' :: r => (1, r)
    | _ => (1, cs)
  let (ds, rest) := takeDigitsL cs1
  if ds.isEmpty then none
  else if rest.isEmpty then some (sgn * digitsVal ds)
  else none

/-- The rational `i + f / 10 ^ l`, the value of the decimal numeral with
integer digits worth `i` and `l` fractional digits worth `f`, built with
`mkRat` so it evaluates by kernel reduction (the arithmetic `Rat.add`,
`Rat.mul`, `Rat.div` are `@[irreducible]`); `decimalRat_eq` below
identifies it with the textbook expression. -/
def decimalRat (i f l : ℕ) : ℚ := mkRat (i * 10 ^ l + f) (10 ^ l)

theorem decimalRat_eq (i f l : ℕ) : decimalRat i f l = (i : ℚ) + (f : ℚ) / 10 ^ l := by
  rw [decimalRat, Rat.mkRat_eq_div]
  have h : ((10 : ℚ) ^ l) ≠ 0 := by positivity
  push_cast
  field_simp

/-- `q * n` for a natural scale factor, built with `mkRat` so it evaluates
by kernel reduction; `ratScale_eq` below identifies it with
multiplication. -/
def ratScale (q : ℚ) (n : ℕ) : ℚ := mkRat (q.num * n) q.den

theorem ratScale_eq (q : ℚ) (n : ℕ) : ratScale q n = q * n := by
  have hd : ((q.den : ℚ)) ≠ 0 := by
    exact_mod_cast q.den_nz
  rw [ratScale, Rat.mkRat_eq_div]
  conv_rhs => rw [← Rat.num_div_den q]
  push_cast
  field_simp

/-- The mantissa part of Python `float(s)`: `digits`, `digits.digits?`, or
`.digits`; returns the value and the remainder. `none` when no digit is
present. -/
def pyFloatMantissa (cs : List Char) : Option (ℚ × List Char) :=
  let (ds1, r1) := takeDigitsL cs
  match r1 with
  | '.' :: r2 =>
    let (ds2, r3) := takeDigitsL r2
    if ds1.isEmpty && ds2.isEmpty then none
    else some (decimalRat (digitsVal ds1) (digitsVal ds2) ds2.length, r3)
  | _ => if ds1.isEmpty then none else some (decimalRat (digitsVal ds1) 0 0, r1)

/-- The optional sign of a numeric literal: whether it is negative, and the
remainder after the sign character. -/
def pySign (cs : List Char) : Bool × List Char :=
  match cs with
  | '-' :: r => (true, r)
  | '+' :: r => (false, r)
  | _ => (false, cs)

/-- The optional sign of an exponent: its value (`1` or `-1`) and the
remainder. -/
def expSign (cs : List Char) : Int × List Char :=
  match cs with
  | '-' :: r => (-1, r)
  | '+' :: r => (1, r)
  | _ => (1, cs)

/-- Python `float(s)` on finite decimal literals: optional whitespace and
sign, a mantissa, and an optional exponent; the value is exact (no IEEE
rounding; `inf`/`nan` words are not modelled).  `none` models `ValueError`. -/
def pyFloat? (s : String) : Option ℚ :=
  let cs := pyStripL s.data
  let sg := pySign cs
  match pyFloatMantissa sg.2 with
  | none => none
  | some (m, rest) =>
    match rest with
    | [] => some (if sg.1 then -m else m)
    | 'e' :: r | 'E' :: r =>
      let es := expSign r
      let t := takeDigitsL es.2
      if t.1.isEmpty || !t.2.isEmpty then none
      else
        let v := m * (10 : ℚ) ^ (es.1 * (digitsVal t.1 : Int))
        some (if sg.1 then -v else v)
    | _ => none

/-! ## The price regex (src/script.py lines 382-390)

`convert_price_to_number` uses two regexes:
* `re.search(r'[$£€]?\s*(\d+\.?\d*)\s*[mM](?:illion)?', price_text)`
* `re.findall(r'[\d.]+', price_text)`

Both are modelled exactly, specialised to their patterns.  For the first,
note that the engine's backtracking is only observable inside the capture
group `(\d+\.?\d*)`:
* `[$£€]?` is deterministic: if the scan position holds a currency symbol
  and matching fails after consuming it, retrying without consuming it
  fails too (`\s*\d` cannot start on a currency symbol);
* both `\s*` are deterministic maximal munch: giving back a whitespace
  character leaves the next atom (`\d` resp. `[mM]`) facing whitespace.

So a match attempt at a position consumes an optional currency symbol and
maximal whitespace, then tries every split of `\d+\.?\d*` in the engine's
greedy order, succeeding on the first whose remainder is maximal
whitespace followed by `m` or `M` (`(?:illion)?` never fails). -/

def currencyChars : List Char := ['$', '£', '€']

/-- After the capture group: `\s*[mM](?:illion)?` succeeds iff maximal
whitespace munch lands on `m` or `M`. -/
def mSuffixOk (rest : List Char) : Bool :=
  match rest.dropWhile pyIsSpace with
  | c :: _ => c = 'm' || c = 'M'
  | [] => false

/-- All splits of `\d+\.?\d*` at the scan position, as (captured, rest)
pairs in the regex engine's greedy backtracking order: the run of `\d+`
from longest to shortest; for each, the optional dot taken before not
taken; for each, the run of `\d*` from longest to shortest. -/
def groupCandidates (cs : List Char) : List (List Char × List Char) :=
  let (ds, rest0) := takeDigitsL cs
  ((List.range ds.length).reverse.map (· + 1)).flatMap (fun i =>
    let pre := ds.take i
    let rem := ds.drop i ++ rest0
    let dotOpts : List (List Char × List Char) :=
      match rem with
      | '.' :: r2 => [(['.'], r2), ([], rem)]
      | _ => [([], rem)]
    dotOpts.flatMap (fun dot =>
      let (ds2, r3) := takeDigitsL dot.2
      (List.range (ds2.length + 1)).reverse.map (fun j =>
        (pre ++ dot.1 ++ ds2.take j, ds2.drop j ++ r3))))

/-- One match attempt of the million-price pattern at the current scan
position; returns the capture group on success. -/
def matchPriceAt (cs : List Char) : Option (List Char) :=
  let cs1 :=
    match cs with
    | c :: r => if c ∈ currencyChars then r else cs
    | [] => []
  let cs2 := cs1.dropWhile pyIsSpace
  ((groupCandidates cs2).find? (fun gc => mSuffixOk gc.2)).map (·.1)

/-- `re.search` of the million-price pattern: leftmost match attempt that
succeeds, returning its capture group. -/
def rePriceSearch : List Char → Option (List Char)
  | [] => none
  | c :: rest => matchPriceAt (c :: rest) <|> rePriceSearch rest

/-- The character class `[\d.]`. -/
def isDigitDot (c : Char) : Bool := pyIsDigit c || c = '.'

/-- `re.findall(r'[\d.]+', s)`: the maximal runs of digits and dots, in
order.  `acc` is the current run, reversed. -/
def digitDotRunsAux : List Char → List Char → List (List Char)
  | acc, [] => if acc.isEmpty then [] else [acc.reverse]
  | acc, c :: cs =>
    if isDigitDot c then digitDotRunsAux (c :: acc) cs
    else if acc.isEmpty then digitDotRunsAux [] cs
    else acc.reverse :: digitDotRunsAux [] cs

def digitDotRuns (cs : List Char) : List (List Char) := digitDotRunsAux [] cs

/-! ## convert_price_to_number (src/script.py lines 378-392) -/

/-- `convert_price_to_number(price_text)` (src/script.py lines 378-392).

```python
price_text = price_text.strip().replace(',', '')
if 'million' in price_text.lower() or 'm' in price_text.lower():
    pattern = ...; match = re.search(pattern, price_text)
    if match: return float(match.group(1)) * 1000000
numbers = re.findall(r'[\d.]+', price_text)
if numbers: return float(''.join(numbers))
return 0
```

`none` models an uncaught `ValueError` raised by `float` (reachable in the
`findall` branch when the joined runs are not a valid float literal). -/
def convert_price_to_number (price_text : String) : Option ℚ :=
  let s := pyReplace (pyStrip price_text) "," ""
  match
    (if pyContains "million" (pyLower s) || pyContains "m" (pyLower s) then
      rePriceSearch s.data
    else none) with
  | some g => (pyFloat? (String.mk g)).map (fun q => ratScale q 1000000)
  | none =>
    let numbers := digitDotRuns s.data
    if numbers.isEmpty then some 0
    else pyFloat? (String.mk numbers.flatten)

/-! ## Decimal rendering of numbers (Python `str`/`repr` of int and float)

Needed/used in two places of the script: the f-string
`f"{beds}, Baths: {baths}, Sq Ft: {sqft}"` building a record field, and
`json.dump`'s rendering of floats.  A float that is an exact short decimal
(the only floats the script produces) reprs as its decimal expansion with
at least one fractional digit; that is what is modelled here (Python's
switch to exponent notation for huge/tiny magnitudes is not modelled). -/

/-- Decimal digit characters of `n`, most significant first.  The fuel is
structural so the function evaluates by reduction; `natDigits` supplies
`n + 1` fuel, which always suffices (`n < 10 ^ (n + 1)`). -/
def natDigitsFuel : ℕ → ℕ → List Char
  | 0, _ => []
  | fuel + 1, n =>
    if n < 10 then [Char.ofNat (48 + n)]
    else natDigitsFuel fuel (n / 10) ++ [Char.ofNat (48 + n % 10)]

def natDigits (n : ℕ) : List Char := natDigitsFuel (n + 1) n

/-- Left-pad a digit string with zeros to width `w`. -/
def padZeros (w : ℕ) (ds : List Char) : List Char :=
  List.replicate (w - ds.length) '0' ++ ds

/-- The least `k ≤ d` with `d ∣ 10 ^ k`, when one exists (it does exactly
when `d`'s prime factors are among 2 and 5, and then the least such `k`
is at most `d`). -/
def findPow10 (d : ℕ) : Option ℕ :=
  (List.range (d + 1)).find? (fun k => d ∣ 10 ^ k)

/-- Python `repr(float)` for a float that is exactly the rational `q`
with decimal denominator: sign, integer digits, `'.'`, and at least one
fractional digit (`2500000.0`, `2.5`, `-0.05`).  Garbage (but total) when
`q.den` is not a divisor of a power of 10 — no float is such a value. -/
def ratReprChars (q : ℚ) : List Char :=
  let f := max ((findPow10 q.den).getD 0) 1
  let m : ℤ := q.num * 10 ^ f / (q.den : ℤ)
  (if q.num < 0 then ['-'] else []) ++
    natDigits (m.natAbs / 10 ^ f) ++ '.' :: padZeros f (natDigits (m.natAbs % 10 ^ f))

def pyFloatRepr (q : ℚ) : String := String.mk (ratReprChars q)

/-- Python `str(int)`. -/
def pyIntRepr (i : ℤ) : String :=
  String.mk ((if i < 0 then ['-'] else []) ++ natDigits i.natAbs)

/-- `f"{x}"` for `x` an `Optional[int]`: `None` prints as `"None"`. -/
def pyOptIntRepr : Option ℤ → String
  | none => "None"
  | some i => pyIntRepr i

/-- `f"{x}"` for `x` an `Optional[float]`. -/
def pyOptFloatRepr : Option ℚ → String
  | none => "None"
  | some q => pyFloatRepr q

/-! ## JSON documents and Python values

One inductive serves as the model both of Python values built from
`None`/`bool`/`float`/`str`/`list`/`dict` (what `json.dump` serialises and
`json.load` returns) and of JSON document values.  Numbers are exact `ℚ`
(the int/float distinction is not tracked; every number the script
persists is a float). -/

inductive Json where
  | null
  | bool (b : Bool)
  | num (q : ℚ)
  | str (s : String)
  | arr (xs : List Json)
  | obj (kvs : List (String × Json))

/-- A Python dict with string keys, as `json.dump` receives it: the
key/value pairs in insertion order. -/
abbrev PyDict := List (String × Json)

/-! ## Listing nodes (the DOM queries of process_listing)

A listing node is modelled as the record of query results
`process_listing` (src/script.py lines 44-148) asks of it; a `none` field
is a `find` that returned no element.  Texts are stored as the element's
text content; where the script calls `.strip()` itself the model does
too.  `get_text(strip=True)` results (the price container and status
pill) are stored already stripped, as BeautifulSoup returns them. -/

structure AgentDetail where
  /-- `agent_detail.find('span', class_='agent-name')`, text content. -/
  agentName : Option String
  /-- `agent_detail.find('span', class_='agency-name')`, text content. -/
  agencyName : Option String

structure PriceContainer where
  /-- `price_container.get_text(strip=True)`. -/
  text : String
  /-- `price_container.find('span', class_='status-pill')`,
  `get_text(strip=True)`. -/
  statusPill : Option String

structure DescContainer where
  /-- `description_container.find('p', class_='agent-detail')`. -/
  agentDetail : Option AgentDetail
  /-- `description_container.find('p', class_='property-description')`,
  text content. -/
  description : Option String

structure ListingNode where
  /-- `listing.find('p', class_='price-container')`. -/
  priceContainerEl : Option PriceContainer
  /-- `listing.find('p', class_='price')`. -/
  priceEl : Option PriceContainer
  /-- `listing.find('ul', class_='detailed-info-container')`: the `li`
  texts, in document order; `none` if the `ul` is absent. -/
  detailsItems : Option (List String)
  /-- `listing.find('p', class_='property-name')`, text content. -/
  propertyName : Option String
  /-- `listing.find('div', class_='description-container')`. -/
  descriptionContainer : Option DescContainer
  /-- `listing.find('p', class_='agent-detail')` (flat fallback). -/
  flatAgentDetail : Option AgentDetail
  /-- `listing.find('p', class_='property-description')` (flat fallback),
  text content. -/
  flatDescription : Option String

/-! ## Listing extraction (process_listing, src/script.py lines 44-148) -/

/-- Price text and derived status (src/script.py lines 46-75): take the
price container (two class names tried in order), whitespace-split its
text; `Est`-prefixed texts make the second token the price with status
`Estimated Price`, otherwise the first token is the price and the joined
rest the status; an explicit status pill overrides the derived status. -/
def extractPriceStatus (node : ListingNode) : String × String :=
  match node.priceContainerEl <|> node.priceEl with
  | none => ("", "")
  | some pc =>
    let parts := pySplitWs pc.text
    let pst : String × String :=
      match parts with
      | [] => ("", "")
      | "Est" :: p1 :: _ => (p1, "Estimated Price")
      | p0 :: rest => (p0, if rest.isEmpty then "" else pyJoinSpace rest)
    match pc.statusPill with
    | some t => (pst.1, t)
    | none => pst

/-- The beds/baths/sqft loop (src/script.py lines 79-96): classify each
`li` text by substring containment and parse its first token; a parse
failure (`ValueError`/`IndexError`, i.e. `none` here) leaves the field
as it was. -/
def parseDetails (items : List String) : Option ℤ × Option ℚ × Option ℤ :=
  items.foldl
    (fun acc item =>
      let text := pyStrip item
      if pyContains "Beds" text then
        match (pySplitWs text).head? >>= pyInt? with
        | some n => (some n, acc.2.1, acc.2.2)
        | none => acc
      else if pyContains "Baths" text then
        match (pySplitWs text).head? >>= pyFloat? with
        | some q => (acc.1, some q, acc.2.2)
        | none => acc
      else if pyContains "Sq Ft" text then
        match (pySplitWs text).head? >>= (fun t => pyInt? (pyReplace t "," "")) with
        | some n => (acc.1, acc.2.1, some n)
        | none => acc
      else acc)
    (none, none, none)

/-- `process_listing(session, listing, location)` (src/script.py lines
44-148): extract the fields, normalise the price, drop the listing when
the normalised price is below 1,500,000, and otherwise build the
`property_details` dict exactly as the script's dict literal does
(including the checkmark marker entry and the single formatted string
under `'Beds:'`).  `none` is both the below-threshold `return None` and
the `except`-caught `None` for a `ValueError` escaping
`convert_price_to_number`. -/
def process_listing (node : ListingNode) : Option PyDict :=
  let ps := extractPriceStatus node
  let price_text := ps.1
  let status := ps.2
  let bbs :=
    match node.detailsItems with
    | some items => parseDetails items
    | none => (none, none, none)
  let address_text := (node.propertyName.map pyStrip).getD ""
  let ad :=
    match node.descriptionContainer with
    | some dc => (dc.agentDetail, dc.description)
    | none => (node.flatAgentDetail, node.flatDescription)
  let agent :=
    match ad.1 with
    | some d => (d.agentName.map pyStrip).getD ""
    | none => ""
  let agency :=
    match ad.1 with
    | some d => (d.agencyName.map pyStrip).getD ""
    | none => ""
  match convert_price_to_number price_text with
  | none => none
  | some price_value =>
    if price_value < 1500000 then none
    else
      some [("Found high-value property:", .str "✓"),
            ("Address:", .str address_text),
            ("Price:", .str price_text),
            ("Price Value", .num price_value),
            ("Status:", .str (if status = "" then "Not Listed For Sale" else status)),
            ("Beds:", .str (pyOptIntRepr bbs.1 ++ ", Baths: " ++ pyOptFloatRepr bbs.2.1 ++
              ", Sq Ft: " ++ pyOptIntRepr bbs.2.2)),
            ("Agent:", .str agent),
            ("Agency:", .str agency)]

/-! ## Fetched pages (the DOM queries of the page loop) -/

structure SearchResults where
  /-- `search_results.find('span')`, text content; `none` if absent. -/
  spanText : Option String

structure PaginationDiv where
  /-- `pagination.find('a', class_='next-page')` is present. -/
  nextPage : Bool

/-- A parsed page, as the record of query results the script asks of the
soup (src/script.py lines 171-182, 243-247, 296-310, 346-355). -/
structure PageDoc where
  /-- `soup.find_all('div', class_='for-sale-content-container')`. -/
  forSale : List ListingNode
  /-- `soup.find_all('div', class_='off-market-content-container')`. -/
  offMarket : List ListingNode
  /-- `soup.find_all('div', attrs={'data-nosnippet': True})`. -/
  nosnippet : List ListingNode
  /-- `soup.find('div', class_='error-container')` is present. -/
  errorContainer : Bool
  /-- `soup.find('p', class_='search-results')`. -/
  searchResults : Option SearchResults
  /-- `soup.find('div', class_='pagination')`. -/
  pagination : Option PaginationDiv

/-- The outcome of one `session.get`: a network-level exception, or a
response with an HTTP status and (for the caller to parse) a document. -/
inductive FetchResult where
  | exn
  | resp (status : ℕ) (doc : PageDoc)

/-- The listing elements of a page (src/script.py lines 171-182 and
296-310, the same query chain in both places): the for-sale and
off-market containers concatenated, falling back to the `data-nosnippet`
divs when both are empty. -/
def pageElements (d : PageDoc) : List ListingNode :=
  let els := d.forSale ++ d.offMarket
  if els.isEmpty then d.nosnippet else els

/-- The records a 200-response's page yields in `scrape_page`: every
listing element processed, `None` results dropped.  `asyncio.gather`
preserves task order, so the fan-out's result order is element order. -/
def extractListings (d : PageDoc) : List PyDict :=
  (pageElements d).filterMap process_listing

/-- What one `scrape_page` call did: its return value, how many GET
requests it issued, and the sleeps it performed (in seconds, in order). -/
structure ScrapeOut where
  records : List PyDict
  requests : ℕ
  sleeps : List ℕ

/-- The attempt loop of `scrape_page` (src/script.py lines 154-201).
The loop `for attempt in range(max_retries)` is modelled by the number
of attempts still available, `remaining = max_retries - attempt`, which
the recursion is structural in; `attempt` is carried along as the oracle
index, and the source's retry guard `attempt < max_retries - 1` is
`0 < remaining - 1`, i.e. `0 < rem` under the `rem + 1` pattern.
Mirrors the source: a 403 (or an exception) retries after a sleep of
`retryDelay` only while the guard holds, otherwise returns `[]`; any
other non-200 returns `[]`; a 200 response is parsed and processed. -/
def scrapeLoop (oracle : ℕ → FetchResult) (retryDelay : ℕ) :
    ℕ → ℕ → ScrapeOut
  | 0, _ => ⟨[], 0, []⟩
  | rem + 1, attempt =>
    match oracle attempt with
    | .exn =>
      if 0 < rem then
        let out := scrapeLoop oracle retryDelay rem (attempt + 1)
        ⟨out.records, out.requests + 1, retryDelay :: out.sleeps⟩
      else ⟨[], 1, []⟩
    | .resp status doc =>
      if status = 403 then
        if 0 < rem then
          let out := scrapeLoop oracle retryDelay rem (attempt + 1)
          ⟨out.records, out.requests + 1, retryDelay :: out.sleeps⟩
        else ⟨[], 1, []⟩
      else if status ≠ 200 then ⟨[], 1, []⟩
      else ⟨extractListings doc, 1, []⟩

/-- `scrape_page(session, url, location)` (src/script.py lines 150-201),
with the source's constants `max_retries = 1`, `retry_delay = 2`. -/
def scrape_page (oracle : ℕ → FetchResult) : ScrapeOut :=
  scrapeLoop oracle 2 1 0

/-- The records scrape_page's single attempt yields from a fetch outcome
(`max_retries = 1` means the retry branches are dead: any 403, any other
non-200, and any exception all return `[]` from attempt 0). -/
def responseRecords : FetchResult → List PyDict
  | .exn => []
  | .resp status doc =>
    if status = 403 then [] else if status ≠ 200 then [] else extractListings doc

/-! ## Total page count (src/script.py lines 237-260) -/

/-- `int(page_info.text.split('of')[1].strip())`: split the span text on
the literal substring `"of"`, take the chunk after the first occurrence
(`[1]`, an `IndexError` if there is no occurrence), strip it and parse an
int.  `none` models the raised `IndexError`/`ValueError`. -/
def parseTotalFromSpan (txt : String) : Option ℤ :=
  match (pySplitOn txt "of").get? 1 with
  | none => none
  | some part => pyInt? (pyStrip part)

/-- The total-page-count phase (src/script.py lines 237-260): fetch the
base URL; on a 200 response read the search-results marker's nested span
and parse the count from its text; default to 1 when the fetch is not a
200, the marker or span is absent, or the parse raises (the surrounding
`try`/`except` turns any of these into the logged default, never an
abort). -/
def computeTotalPages (first : FetchResult) : ℤ :=
  match first with
  | .exn => 1
  | .resp status doc =>
    if status = 200 then
      match doc.searchResults with
      | some sr =>
        match sr.spanText with
        | some txt =>
          match parseTotalFromSpan txt with
          | some n => n
          | none => 1
        | none => 1
      | none => 1
    else 1

/-! ## The per-page loop body (src/script.py lines 265-371) -/

/-- The persistent state the loop body touches: the in-memory collection,
the output file (modelled as the list it holds, `none` = absent), and the
backup files written so far.  `backupAttempts` counts backup-write
attempts, successful or not. -/
structure IterState where
  properties : List PyDict
  outFile : Option (List PyDict)
  backups : List (List PyDict)
  backupAttempts : ℕ

/-- Whether the loop body ran `page += 1` and loops again, or `break`ed. -/
inductive IterNext where
  | nextPage
  | stop
deriving DecidableEq

/-- The save phase (src/script.py lines 317-343): with a nonempty
`page_listings` the new records are appended to `properties` and the
whole file is rewritten; a failed write attempts one backup write; a
failed backup is only logged.  The boolean result is whether the body
proceeds to the pagination check (`True` exactly when `page_listings`
was nonempty; otherwise the body `break`s).  `writeOk`/`backupOk` say
whether the respective `open`+`json.dump` succeeds. -/
def savePage (writeOk backupOk : Bool) (st : IterState) (pageListings : List PyDict) :
    IterState × Bool :=
  if pageListings.isEmpty then (st, false)
  else
    let props := st.properties ++ pageListings
    if writeOk then ({ st with properties := props, outFile := some props }, true)
    else if backupOk then
      ({ st with properties := props, backups := st.backups ++ [props],
                 backupAttempts := st.backupAttempts + 1 }, true)
    else ({ st with properties := props, backupAttempts := st.backupAttempts + 1 }, true)

/-- One iteration of the page loop (src/script.py lines 265-371), for the
already-built page URL `url`.  `oracle n` is the outcome of the `n`-th
GET issued during the iteration: the loop body's own `session.get` is
request 0, and the `scrape_page` call re-fetching the same URL consumes
the oracle from request 1 on.  Mirrors the source's order: 404 breaks;
any other non-200 breaks; an error container breaks; the listing elements
are then counted (logged only — the count does not influence control
flow); `scrape_page` is called; an empty result breaks, a nonempty one
runs the save phase; then the pagination check decides `page += 1` or
`break`.  An exception from the body's GET is caught by the surrounding
`except` and breaks. -/
def pageIteration (url : String) (oracle : ℕ → FetchResult) (writeOk backupOk : Bool)
    (page totalPages : ℤ) (st : IterState) :
    IterState × List String × IterNext :=
  match oracle 0 with
  | .exn => (st, [url], .stop)
  | .resp status doc =>
    if status = 404 then (st, [url], .stop)
    else if status ≠ 200 then (st, [url], .stop)
    else if doc.errorContainer then (st, [url], .stop)
    else
      let sp := scrape_page (fun i => oracle (1 + i))
      let reqs := url :: List.replicate sp.requests url
      let saved := savePage writeOk backupOk st sp.records
      if !saved.2 then (saved.1, reqs, .stop)
      else
        match doc.pagination with
        | some pg =>
          if pg.nextPage then (saved.1, reqs, .nextPage) else (saved.1, reqs, .stop)
        | none =>
          if doc.searchResults.isSome ∧ page < totalPages then (saved.1, reqs, .nextPage)
          else (saved.1, reqs, .stop)

/-! ## The JSON codec (json.dump / json.load as the script calls them)

The script persists with `json.dump(properties, f, ensure_ascii=False,
indent=4)` and reloads with `json.load(f)` (src/script.py lines 222-233,
327-337).  Both are modelled on `List Char`:

* the serialiser reproduces `indent=4` layout: items are separated by
  `','` + newline + indent, keys by `': '`, empty containers are `[]`
  and the empty object; strings escape `"` `\` and control characters
  (`ensure_ascii=False` leaves other characters raw); floats render
  through their `repr` (`ratReprChars`);
* the parser is a fuel-indexed recursive-descent JSON reader with
  Python's number grammar (`-?(0|[1-9]\d*)(\.\d+)?([eE][-+]?\d+)?`);
  fuel is structural so the parser is total, and the length of the
  document plus one is always enough fuel (each recursion level consumes
  at least one character).
-/

/-- Lowercase hex digit for `n < 16`. -/
def hexDigitChar (n : ℕ) : Char :=
  if n < 10 then Char.ofNat (48 + n) else Char.ofNat (87 + n)

/-- One character as `json.dump(..., ensure_ascii=False)` writes it. -/
def escChar (c : Char) : List Char :=
  if c = '"' then ['\\', '"']
  else if c = '\\' then ['\\', '\\']
  else if c = '\n' then ['\\', 'n']
  else if c = '\r' then ['\\', 'r']
  else if c = '\t' then ['\\', 't']
  else if c = '\x08' then ['\\', 'b']
  else if c = '\x0c' then ['\\', 'f']
  else if c.toNat < 32 then
    ['\\', 'u', '0', '0', hexDigitChar (c.toNat / 16), hexDigitChar (c.toNat % 16)]
  else [c]

def escString (cs : List Char) : List Char := (cs.map escChar).flatten

/-- A JSON string literal: quote, escaped body, quote. -/
def serStr (cs : List Char) : List Char := '"' :: (escString cs ++ ['"'])

/-- The newline-plus-indent `json.dump` emits before an item at nesting
level `ind` (`indent=4`). -/
def nlIndent (ind : ℕ) : List Char := '\n' :: List.replicate (4 * ind) ' '

mutual

/-- `json.dump(..., ensure_ascii=False, indent=4)` of a value at nesting
level `ind`, as a character list. -/
def serValue : ℕ → Json → List Char
  | _, .null => ['n', 'u', 'l', 'l']
  | _, .bool true => ['t', 'r', 'u', 'e']
  | _, .bool false => ['f', 'a', 'l', 's', 'e']
  | _, .num q => ratReprChars q
  | _, .str s => serStr s.data
  | _, .arr [] => ['[', ']']
  | ind, .arr (x :: xs) =>
    '[' :: (nlIndent (ind + 1) ++ serValue (ind + 1) x ++ serElemsRest (ind + 1) xs ++
      nlIndent ind ++ [']'])
  | _, .obj [] => ['\x7b', '\x7d']
  | ind, .obj (kv :: kvs) =>
    '\x7b' :: (nlIndent (ind + 1) ++ serMember (ind + 1) kv ++ serMembersRest (ind + 1) kvs ++
      nlIndent ind ++ ['\x7d'])

/-- The remaining array items, each preceded by `','` and the item
separator's newline-plus-indent. -/
def serElemsRest : ℕ → List Json → List Char
  | _, [] => []
  | ind, x :: xs => ',' :: (nlIndent ind ++ serValue ind x ++ serElemsRest ind xs)

/-- One object member: key string, `': '`, value. -/
def serMember : ℕ → String × Json → List Char
  | ind, kv => serStr kv.1.data ++ ':' :: ' ' :: serValue ind kv.2

/-- The remaining object members, each preceded by `','` and the item
separator's newline-plus-indent. -/
def serMembersRest : ℕ → List (String × Json) → List Char
  | _, [] => []
  | ind, kv :: kvs => ',' :: (nlIndent ind ++ serMember ind kv ++ serMembersRest ind kvs)

end

/-- `json.dump(v, f, ensure_ascii=False, indent=4)`: the file contents. -/
def dumps (v : Json) : String := String.mk (serValue 0 v)

/-- JSON whitespace (what `json.load` skips between tokens). -/
def jsonWsChar (c : Char) : Bool := c = ' ' || c = '\t' || c = '\n' || c = '\r'

def skipWs (cs : List Char) : List Char := cs.dropWhile jsonWsChar

/-- Hex digit value, both cases. -/
def parseHex (c : Char) : Option ℕ :=
  if pyIsDigit c then some (c.toNat - 48)
  else if 'a' ≤ c && c ≤ 'f' then some (c.toNat - 87)
  else if 'A' ≤ c && c ≤ 'F' then some (c.toNat - 55)
  else none

/-- The short escapes of the JSON grammar. -/
def unescapeChar : Char → Option Char
  | 'n' => some '\n'
  | 'r' => some '\r'
  | 't' => some '\t'
  | 'b' => some '\x08'
  | 'f' => some '\x0c'
  | '"' => some '"'
  | '\\' => some '\\'
  | '/' => some '/'
  | _ => none

/-- The body of a JSON string literal after the opening quote: characters
and escapes up to the closing quote (strict mode: raw control characters
are rejected, as `json.load` rejects them). -/
def parseStrBody : List Char → Option (List Char × List Char)
  | [] => none
  | '"' :: rest => some ([], rest)
  | '\\' :: 'u' :: a :: b :: c :: d :: rest =>
    (match parseHex a, parseHex b, parseHex c, parseHex d with
     | some va, some vb, some vc, some vd =>
       (parseStrBody rest).map
         (fun p => (Char.ofNat (((va * 16 + vb) * 16 + vc) * 16 + vd) :: p.1, p.2))
     | _, _, _, _ => none)
  | '\\' :: e :: rest =>
    (match unescapeChar e with
     | some ch => (parseStrBody rest).map (fun p => (ch :: p.1, p.2))
     | none => none)
  | c :: rest =>
    if c.toNat < 32 then none
    else (parseStrBody rest).map (fun p => (c :: p.1, p.2))

/-- The integer part of Python's JSON number grammar, `0|[1-9]\d*`
(no leading zeros). -/
def parseIntPart : List Char → Option (ℕ × List Char)
  | '0' :: r => some (0, r)
  | c :: r =>
    if pyIsDigit c then
      some (digitsVal ((c :: r).takeWhile pyIsDigit), (c :: r).dropWhile pyIsDigit)
    else none
  | [] => none

/-- The optional fraction `(\.\d+)?`: a dot not followed by a digit is
left unconsumed (the regex group simply fails to participate). -/
def parseFracPart (cs : List Char) : ℕ × ℕ × List Char :=
  match cs with
  | '.' :: r =>
    let (ds, r') := takeDigitsL r
    if ds.isEmpty then (0, 0, cs) else (digitsVal ds, ds.length, r')
  | _ => (0, 0, cs)

/-- The optional exponent `([eE][-+]?\d+)?`, likewise backtracking to
nothing when no digits follow. -/
def parseExpPart (cs : List Char) : Int × List Char :=
  match cs with
  | 'e' :: r | 'E' :: r =>
    let (es, r1) : Int × List Char :=
      match r with
      | '-' :: r' => (-1, r')
      | '+' :: r' => (1, r')
      | _ => (1, r)
    let (ds, r2) := takeDigitsL r1
    if ds.isEmpty then (0, cs) else (es * digitsVal ds, r2)
  | _ => (0, cs)

/-- The optional leading minus sign. -/
def parseNeg (cs : List Char) : Bool × List Char :=
  match cs with
  | '-' :: r => (true, r)
  | _ => (false, cs)

/-- A JSON number per Python's scanner regex
`-?(0|[1-9]\d*)(\.\d+)?([eE][-+]?\d+)?`. -/
def parseNumber (cs : List Char) : Option (ℚ × List Char) :=
  let s := parseNeg cs
  match parseIntPart s.2 with
  | none => none
  | some (ip, r1) =>
    let fr := parseFracPart r1
    let ex := parseExpPart fr.2.2
    let mag : ℚ := decimalRat ip fr.1 fr.2.1 * (10 : ℚ) ^ ex.1
    some (if s.1 then -mag else mag, ex.2)

mutual

/-- One JSON value (fuel-indexed; `none` on malformed input or fuel
exhaustion). -/
def parseValue : ℕ → List Char → Option (Json × List Char)
  | 0, _ => none
  | fuel + 1, cs =>
    match skipWs cs with
    | 'n' :: 'u' :: 'l' :: 'l' :: rest => some (.null, rest)
    | 't' :: 'r' :: 'u' :: 'e' :: rest => some (.bool true, rest)
    | 'f' :: 'a' :: 'l' :: 's' :: 'e' :: rest => some (.bool false, rest)
    | '"' :: rest => (parseStrBody rest).map (fun p => (.str (String.mk p.1), p.2))
    | '[' :: rest => (parseArrBody fuel rest).map (fun p => (.arr p.1, p.2))
    | '\x7b' :: rest => (parseObjBody fuel rest).map (fun p => (.obj p.1, p.2))
    | other => (parseNumber other).map (fun p => (.num p.1, p.2))

/-- After `'['`: the empty array, or the first element followed by the
tail loop. -/
def parseArrBody : ℕ → List Char → Option (List Json × List Char)
  | 0, _ => none
  | fuel + 1, cs =>
    match skipWs cs with
    | ']' :: rest => some ([], rest)
    | other =>
      match parseValue fuel other with
      | none => none
      | some (v, r) =>
        match parseArrTail fuel r with
        | none => none
        | some (vs, r') => some (v :: vs, r')

/-- After an array element: `','` and another element, or `']'`. -/
def parseArrTail : ℕ → List Char → Option (List Json × List Char)
  | 0, _ => none
  | fuel + 1, cs =>
    match skipWs cs with
    | ',' :: rest =>
      (match parseValue fuel rest with
       | none => none
       | some (v, r) =>
         match parseArrTail fuel r with
         | none => none
         | some (vs, r') => some (v :: vs, r'))
    | ']' :: rest => some ([], rest)
    | _ => none

/-- After `'{'`: the empty object, or the first `key: value` member
followed by the tail loop. -/
def parseObjBody : ℕ → List Char → Option (List (String × Json) × List Char)
  | 0, _ => none
  | fuel + 1, cs =>
    match skipWs cs with
    | '\x7d' :: rest => some ([], rest)
    | '"' :: rest =>
      (match parseStrBody rest with
       | none => none
       | some (k, r1) =>
         match skipWs r1 with
         | ':' :: r2 =>
           (match parseValue fuel r2 with
            | none => none
            | some (v, r3) =>
              match parseObjTail fuel r3 with
              | none => none
              | some (kvs, r') => some ((String.mk k, v) :: kvs, r'))
         | _ => none)
    | _ => none

/-- After an object member: `','` and another member, or the closing
brace. -/
def parseObjTail : ℕ → List Char → Option (List (String × Json) × List Char)
  | 0, _ => none
  | fuel + 1, cs =>
    match skipWs cs with
    | ',' :: rest =>
      (match skipWs rest with
       | '"' :: r0 =>
         (match parseStrBody r0 with
          | none => none
          | some (k, r1) =>
            match skipWs r1 with
            | ':' :: r2 =>
              (match parseValue fuel r2 with
               | none => none
               | some (v, r3) =>
                 match parseObjTail fuel r3 with
                 | none => none
                 | some (kvs, r') => some ((String.mk k, v) :: kvs, r'))
            | _ => none)
       | _ => none)
    | '\x7d' :: rest => some ([], rest)
    | _ => none

end

/-- `json.load(f)` on file contents `s`: parse one document and require
only whitespace after it.  The fuel `s.length + 1` always suffices: every
recursion level strictly consumes input. -/
def loads (s : String) : Option Json :=
  match parseValue (s.data.length + 1) s.data with
  | none => none
  | some (v, rest) => if (skipWs rest).isEmpty then some v else none

/-! ## Digit-string lemmas (toolkit for the codec round-trip) -/

theorem digitChar_isDigit {n : ℕ} (h : n < 10) : pyIsDigit (Char.ofNat (48 + n)) = true := by
  interval_cases n <;> decide

theorem digitChar_toNat {n : ℕ} (h : n < 10) : (Char.ofNat (48 + n)).toNat = 48 + n := by
  interval_cases n <;> decide

theorem digitChar_ne_zero {n : ℕ} (h : n < 10) (hn : n ≠ 0) : Char.ofNat (48 + n) ≠ '0' := by
  interval_cases n
  · exact absurd rfl hn
  all_goals decide

theorem natDigitsFuel_digits :
    ∀ fuel n, ∀ c ∈ natDigitsFuel fuel n, pyIsDigit c = true := by
  intro fuel
  induction fuel with
  | zero => intro n c hc; simp [natDigitsFuel] at hc
  | succ f ih =>
    intro n c hc
    rw [natDigitsFuel] at hc
    by_cases h : n < 10
    · rw [if_pos h] at hc
      rcases List.mem_singleton.mp hc with rfl
      exact digitChar_isDigit h
    · rw [if_neg h] at hc
      rcases List.mem_append.mp hc with h1 | h1
      · exact ih _ c h1
      · rcases List.mem_singleton.mp h1 with rfl
        exact digitChar_isDigit (Nat.mod_lt _ (by omega))

theorem digitsVal_append (l r : List Char) :
    digitsVal (l ++ r) = r.foldl (fun a c => 10 * a + (c.toNat - 48)) (digitsVal l) := by
  rw [digitsVal, digitsVal, List.foldl_append]

theorem digitsVal_natDigitsFuel :
    ∀ fuel n, n < 10 ^ fuel → digitsVal (natDigitsFuel fuel n) = n := by
  intro fuel
  induction fuel with
  | zero =>
    intro n h
    have hn : n = 0 := by simpa using h
    subst hn
    rfl
  | succ f ih =>
    intro n h
    rw [natDigitsFuel]
    by_cases h10 : n < 10
    · rw [if_pos h10]
      simp [digitsVal, digitChar_toNat h10]
    · rw [if_neg h10, digitsVal_append]
      simp only [List.foldl_cons, List.foldl_nil]
      rw [ih (n / 10) (by rw [pow_succ] at h; omega)]
      rw [digitChar_toNat (Nat.mod_lt _ (by omega))]
      omega

theorem natDigitsFuel_ne_nil {fuel n : ℕ} (h : 0 < fuel) : natDigitsFuel fuel n ≠ [] := by
  match fuel, h with
  | f + 1, _ =>
    rw [natDigitsFuel]
    by_cases h10 : n < 10 <;> simp [h10]

theorem natDigitsFuel_head_ne_zero :
    ∀ fuel n, n ≠ 0 → n < 10 ^ fuel → ∀ c t, natDigitsFuel fuel n = c :: t → c ≠ '0' := by
  intro fuel
  induction fuel with
  | zero => intro n hn hf c t h; omega
  | succ f ih =>
    intro n hn hf c t h
    rw [natDigitsFuel] at h
    by_cases h10 : n < 10
    · rw [if_pos h10] at h
      cases h
      exact digitChar_ne_zero h10 hn
    · rw [if_neg h10] at h
      have hf' : n / 10 < 10 ^ f := by rw [pow_succ] at hf; omega
      have hfpos : 0 < f := by
        rcases Nat.eq_zero_or_pos f with rfl | hp
        · omega
        · exact hp
      rcases hrec : natDigitsFuel f (n / 10) with _ | ⟨c0, t0⟩
      · exact absurd hrec (natDigitsFuel_ne_nil hfpos)
      · rw [hrec] at h
        simp only [List.cons_append, List.cons.injEq] at h
        exact h.1 ▸ ih (n / 10) (by omega) hf' c0 t0 hrec

theorem natDigitsFuel_length_le :
    ∀ fuel n k, n < 10 ^ k → 0 < k → (natDigitsFuel fuel n).length ≤ k := by
  intro fuel
  induction fuel with
  | zero => intro n k _ _; simp [natDigitsFuel]
  | succ f ih =>
    intro n k hk hk0
    rw [natDigitsFuel]
    by_cases h10 : n < 10
    · rw [if_pos h10]; simpa using hk0
    · rw [if_neg h10]
      rcases k with _ | k
      · omega
      · rcases k with _ | k
        · simp [pow_succ] at hk; omega
        · have := ih (n / 10) (k + 1) (by rw [pow_succ] at hk; omega) (by omega)
          simp only [List.length_append, List.length_cons, List.length_nil]
          omega

theorem lt_pow10_succ (n : ℕ) : n < 10 ^ (n + 1) :=
  lt_of_lt_of_le (Nat.lt_two_pow n)
    (le_trans (Nat.pow_le_pow_left (by norm_num) n)
      (Nat.pow_le_pow_right (by norm_num) (Nat.le_succ n)))

theorem natDigits_digits (n : ℕ) : ∀ c ∈ natDigits n, pyIsDigit c = true :=
  natDigitsFuel_digits _ n

theorem digitsVal_natDigits (n : ℕ) : digitsVal (natDigits n) = n :=
  digitsVal_natDigitsFuel _ n (lt_pow10_succ n)

theorem natDigits_ne_nil (n : ℕ) : natDigits n ≠ [] :=
  natDigitsFuel_ne_nil (by omega)

theorem natDigits_head_ne_zero (n : ℕ) (hn : n ≠ 0) :
    ∀ c t, natDigits n = c :: t → c ≠ '0' :=
  natDigitsFuel_head_ne_zero _ n hn (lt_pow10_succ n)

theorem natDigits_length_le (n k : ℕ) (h : n < 10 ^ k) (hk : 0 < k) :
    (natDigits n).length ≤ k :=
  natDigitsFuel_length_le _ n k h hk

theorem foldl_zeros (z : ℕ) :
    List.foldl (fun a c => 10 * a + (c.toNat - 48)) 0 (List.replicate z '0') = 0 := by
  induction z with
  | zero => rfl
  | succ z ih => simpa [List.replicate_succ] using ih

theorem digitsVal_padZeros (w : ℕ) (ds : List Char) :
    digitsVal (padZeros w ds) = digitsVal ds := by
  rw [padZeros]
  rw [show digitsVal (List.replicate (w - ds.length) '0' ++ ds)
      = ds.foldl (fun a c => 10 * a + (c.toNat - 48)) (digitsVal (List.replicate (w - ds.length) '0'))
      from digitsVal_append _ _]
  rw [show digitsVal (List.replicate (w - ds.length) '0') = 0 from foldl_zeros _]
  rfl

theorem padZeros_length (w : ℕ) (ds : List Char) (h : ds.length ≤ w) :
    (padZeros w ds).length = w := by
  simp [padZeros]
  omega

theorem padZeros_digits (w : ℕ) (ds : List Char) (h : ∀ c ∈ ds, pyIsDigit c = true) :
    ∀ c ∈ padZeros w ds, pyIsDigit c = true := by
  intro c hc
  rcases List.mem_append.mp hc with h1 | h1
  · rcases List.eq_of_mem_replicate h1 with rfl
    decide
  · exact h c h1

/-! ## Number codec round-trip -/

/-- A remainder that cannot extend a JSON number: empty or headed by a
character that is no digit and none of `.`, `e`, `E`.  Every position a
number occupies in `json.dump` output is followed by such a remainder
(`,`, newline, `]`, closing brace, or end of file). -/
def numDelim : List Char → Bool
  | [] => true
  | c :: _ => !(pyIsDigit c || c = '.' || c = 'e' || c = 'E')

theorem digit_ne_minus {c : Char} (h : pyIsDigit c = true) : c ≠ '-' := by
  intro he
  subst he
  exact absurd h (by decide)

theorem digit_ne_dot {c : Char} (h : pyIsDigit c = true) : c ≠ '.' := by
  intro he
  subst he
  exact absurd h (by decide)

theorem takeWhile_nil_of_numDelim {rest : List Char} (h : numDelim rest = true) :
    rest.takeWhile pyIsDigit = [] := by
  cases rest with
  | nil => rfl
  | cons c t =>
    simp only [numDelim, Bool.not_eq_true', Bool.or_eq_false_iff] at h
    simp [List.takeWhile_cons, h.1.1.1]

theorem dropWhile_eq_self_of_takeWhile_nil {p : Char → Bool} {l : List Char}
    (h : l.takeWhile p = []) : l.dropWhile p = l := by
  cases l with
  | nil => rfl
  | cons c t =>
    rw [List.takeWhile_cons] at h
    by_cases hp : p c
    · simp [hp] at h
    · simp [List.dropWhile_cons, hp]

theorem takeWhile_digits_append {ds rest : List Char}
    (hds : ∀ c ∈ ds, pyIsDigit c = true) (hrest : rest.takeWhile pyIsDigit = []) :
    (ds ++ rest).takeWhile pyIsDigit = ds ∧ (ds ++ rest).dropWhile pyIsDigit = rest := by
  induction ds with
  | nil => exact ⟨hrest, dropWhile_eq_self_of_takeWhile_nil hrest⟩
  | cons c t ih =>
    have hc : pyIsDigit c = true := hds c (List.mem_cons_self c t)
    have ht := ih (fun x hx => hds x (List.mem_cons_of_mem c hx))
    simp only [List.cons_append, List.takeWhile_cons, List.dropWhile_cons, hc, if_pos]
    exact ⟨by rw [ht.1], by rw [ht.2]⟩

theorem parseExpPart_of_ne {c : Char} (t : List Char) (he : c ≠ 'e') (hE : c ≠ 'E') :
    parseExpPart (c :: t) = (0, c :: t) := by
  rw [parseExpPart.eq_def]
  split
  · rename_i heq
    injection heq with h1 _
    exact absurd h1 he
  · rename_i heq
    injection heq with h1 _
    exact absurd h1 hE
  · rfl

/-- `parseIntPart` inverts `natDigits` whenever the remainder starts with
no digit. -/
theorem parseNeg_of_digit {c : Char} (t : List Char) (hc : pyIsDigit c = true) :
    parseNeg (c :: t) = (false, c :: t) := by
  rw [parseNeg.eq_def]
  split
  · rename_i heq
    injection heq with h1 _
    exact absurd h1 (digit_ne_minus hc)
  · rfl

theorem parseIntPart_natDigits (A : ℕ) (rest : List Char)
    (hrest : rest.takeWhile pyIsDigit = []) :
    parseIntPart (natDigits A ++ rest) = some (A, rest) := by
  by_cases hA0 : A = 0
  · subst hA0
    have h0 : natDigits 0 = ['0'] := by decide
    rw [h0]
    rfl
  · obtain ⟨c, t, hct⟩ := List.exists_cons_of_ne_nil (natDigits_ne_nil A)
    have hcdig : pyIsDigit c = true :=
      natDigits_digits A c (by rw [hct]; exact List.mem_cons_self _ _)
    have hc0 : c ≠ '0' := natDigits_head_ne_zero A hA0 c t hct
    have htk := takeWhile_digits_append (natDigits_digits A) hrest
    have hshape : natDigits A ++ rest = c :: (t ++ rest) := by
      rw [hct, List.cons_append]
    rw [parseIntPart.eq_def, hshape]
    split
    · rename_i r heq
      injection heq with h1 _
      exact absurd h1 hc0
    · rename_i c' r heq
      injection heq with h1 h2
      subst h1
      subst h2
      rw [if_pos hcdig, ← hshape, htk.1, htk.2, digitsVal_natDigits]
    · rename_i heq
      exact absurd heq (by simp)

/-- The number codec round-trip: parsing the rendered form of a rational
with decimal denominator recovers it exactly, whenever the remainder
cannot extend the number. -/
theorem parseNumber_ratRepr (q : ℚ) (h : (findPow10 q.den).isSome) (rest : List Char)
    (hrest : numDelim rest = true) :
    parseNumber (ratReprChars q ++ rest) = some (q, rest) := by
  -- names mirroring the serialiser's lets
  set k := (findPow10 q.den).getD 0 with hk
  set f := max k 1 with hf
  set m : ℤ := q.num * 10 ^ f / (q.den : ℤ) with hm
  set A := m.natAbs / 10 ^ f with hA
  set B := m.natAbs % 10 ^ f with hB
  have hrepr : ratReprChars q ++ rest
      = (if q.num < 0 then ['-'] else []) ++
        (natDigits A ++ '.' :: (padZeros f (natDigits B) ++ rest)) := by
    simp [ratReprChars, ← hk, ← hf, ← hm, ← hA, ← hB, List.append_assoc]
  -- the divisibility behind the exact division
  obtain ⟨k0, hk0⟩ := Option.isSome_iff_exists.mp h
  have hkk : k = k0 := by rw [hk, hk0]; rfl
  have hdvd10 : q.den ∣ 10 ^ k := by
    have := List.find?_some hk0
    rw [hkk]
    exact of_decide_eq_true this
  have hdvdf : (q.den : ℤ) ∣ 10 ^ f := by
    have h1 : (10 : ℤ) ^ k ∣ 10 ^ f := pow_dvd_pow 10 (le_max_left k 1)
    have h2 : (q.den : ℤ) ∣ (10 : ℤ) ^ k := by
      have := Int.natCast_dvd_natCast.mpr hdvd10
      simpa using this
    exact dvd_trans h2 h1
  have hden : (0 : ℤ) < (q.den : ℤ) := by exact_mod_cast q.pos
  have h10f : (0 : ℤ) < 10 ^ f := by positivity
  have hmden : m * q.den = q.num * 10 ^ f := by
    rw [hm]
    exact Int.ediv_mul_cancel (Dvd.dvd.mul_left hdvdf q.num)
  -- the sign of m matches the sign of q.num
  have hsign : m < 0 ↔ q.num < 0 := by
    constructor
    · intro h0
      by_contra hq
      push_neg at hq
      nlinarith
    · intro hq
      by_contra h0
      push_neg at h0
      nlinarith
  -- the value identity
  have hqval : (m : ℚ) = q * 10 ^ f := by
    have hc : ((m * (q.den : ℤ) : ℤ) : ℚ) = ((q.num * 10 ^ f : ℤ) : ℚ) := by
      exact_mod_cast congrArg (fun z : ℤ => (z : ℚ)) hmden
    push_cast at hc
    have hd0 : ((q.den : ℚ)) ≠ 0 := by exact_mod_cast q.den_nz
    calc (m : ℚ) = (m : ℚ) * (q.den : ℚ) / (q.den : ℚ) := by field_simp
    _ = (q.num : ℚ) * (10 : ℚ) ^ f / (q.den : ℚ) := by rw [hc]
    _ = (q.num : ℚ) / (q.den : ℚ) * (10 : ℚ) ^ f := by ring
    _ = q * 10 ^ f := by rw [Rat.num_div_den]
  have hMAB : A * 10 ^ f + B = m.natAbs := by
    rw [hA, hB, Nat.mul_comm]
    exact Nat.div_add_mod _ _
  have hBlt : B < 10 ^ f := Nat.mod_lt _ (by positivity)
  have hfpos : 0 < f := le_max_right k 1
  -- the final value the parser computes
  have hval : decimalRat A B f * (10 : ℚ) ^ (0 : ℤ) = (m.natAbs : ℚ) / 10 ^ f := by
    rw [zpow_zero, mul_one, decimalRat_eq]
    have h10 : ((10 : ℚ) ^ f) ≠ 0 := by positivity
    field_simp
    exact_mod_cast congrArg (fun n : ℕ => (n : ℚ)) hMAB
  -- digit-string facts
  have hpadDigits := padZeros_digits f (natDigits B) (natDigits_digits B)
  have hpadLen : (padZeros f (natDigits B)).length = f :=
    padZeros_length _ _ (natDigits_length_le B f hBlt hfpos)
  have hpadVal : digitsVal (padZeros f (natDigits B)) = B := by
    rw [digitsVal_padZeros, digitsVal_natDigits]
  have hrtake := takeWhile_digits_append hpadDigits (takeWhile_nil_of_numDelim hrest)
  -- the fraction part parse, shared by both sign cases
  have hfrac : parseFracPart ('.' :: (padZeros f (natDigits B) ++ rest)) = (B, f, rest) := by
    rw [parseFracPart]
    simp only [takeDigitsL, hrtake.1, hrtake.2]
    have : (padZeros f (natDigits B)).isEmpty = false := by
      rcases hp : padZeros f (natDigits B) with _ | ⟨c, t⟩
      · rw [hp] at hpadLen; simp at hpadLen; omega
      · rfl
    simp [this, hpadVal, hpadLen]
  -- the exponent part parse
  have hexp : parseExpPart rest = (0, rest) := by
    cases rest with
    | nil => rfl
    | cons c t =>
      simp only [numDelim, Bool.not_eq_true', Bool.or_eq_false_iff] at hrest
      obtain ⟨⟨⟨-, -⟩, he⟩, hE⟩ := hrest
      exact parseExpPart_of_ne t (by simpa using he) (by simpa using hE)
  -- the integer part parse
  have hintpart : parseIntPart (natDigits A ++ '.' :: (padZeros f (natDigits B) ++ rest))
      = some (A, '.' :: (padZeros f (natDigits B) ++ rest)) :=
    parseIntPart_natDigits A ('.' :: (padZeros f (natDigits B) ++ rest))
      (by rw [List.takeWhile_cons, if_neg (by decide)])
  -- the value the parser assembles equals q, by sign case
  have hq' : (m.natAbs : ℚ) / 10 ^ f = if q.num < 0 then -q else q := by
    rcases lt_or_le q.num 0 with hneg | hpos
    · rw [if_pos hneg]
      have hm0 : m < 0 := hsign.mpr hneg
      have h2 : ((m.natAbs : ℕ) : ℚ) = -(m : ℚ) := by
        rw [Int.cast_natAbs, abs_of_neg hm0]
        push_cast
        ring
      rw [h2, hqval]
      have h10 : ((10 : ℚ) ^ f) ≠ 0 := by positivity
      field_simp
    · rw [if_neg (not_lt.mpr hpos)]
      have hm0 : 0 ≤ m := by
        by_contra hc
        push_neg at hc
        exact absurd (hsign.mp hc) (not_lt.mpr hpos)
      have h2 : ((m.natAbs : ℕ) : ℚ) = (m : ℚ) := by
        rw [Int.cast_natAbs, abs_of_nonneg hm0]
      rw [h2, hqval]
      have h10 : ((10 : ℚ) ^ f) ≠ 0 := by positivity
      field_simp
  rw [hrepr]
  by_cases hneg : q.num < 0
  · rw [if_pos hneg]
    simp only [List.cons_append, List.nil_append]
    rw [parseNumber]
    have hs : parseNeg ('-' :: (natDigits A ++ '.' :: (padZeros f (natDigits B) ++ rest)))
        = (true, natDigits A ++ '.' :: (padZeros f (natDigits B) ++ rest)) := rfl
    rw [hs]
    simp only [hintpart, hfrac, hexp]
    rw [hval]
    have : ((m.natAbs : ℚ) / 10 ^ f) = -q := by rw [hq', if_pos hneg]
    rw [this, neg_neg]
    simp
  · rw [if_neg hneg, List.nil_append]
    obtain ⟨c, t, hct⟩ := List.exists_cons_of_ne_nil (natDigits_ne_nil A)
    have hcdig : pyIsDigit c = true :=
      natDigits_digits A c (by rw [hct]; exact List.mem_cons_self _ _)
    have hshape : natDigits A ++ '.' :: (padZeros f (natDigits B) ++ rest)
        = c :: (t ++ '.' :: (padZeros f (natDigits B) ++ rest)) := by
      rw [hct, List.cons_append]
    rw [parseNumber, hshape, parseNeg_of_digit _ hcdig, ← hshape]
    simp only [hintpart, hfrac, hexp]
    rw [hval]
    have : ((m.natAbs : ℚ) / 10 ^ f) = q := by rw [hq', if_neg hneg]
    rw [this]
    simp

/-! ## String codec round-trip -/

theorem parseHex_hexDigitChar {d : ℕ} (h : d < 16) : parseHex (hexDigitChar d) = some d := by
  interval_cases d <;> decide

/-- The `\u` escape arm of `parseStrBody`, with the four hex digits
already decoded. -/
theorem parseStrBody_unicode (a b c' d : Char) (va vb vc vd : ℕ) (X : List Char)
    (ha : parseHex a = some va) (hb : parseHex b = some vb)
    (hc : parseHex c' = some vc) (hd : parseHex d = some vd) :
    parseStrBody ('\\' :: 'u' :: a :: b :: c' :: d :: X)
      = (parseStrBody X).map
          (fun p => (Char.ofNat (((va * 16 + vb) * 16 + vc) * 16 + vd) :: p.1, p.2)) := by
  rw [parseStrBody, ha, hb, hc, hd]

/-- Parsing one escaped character prepends exactly that character. -/
theorem parseStrBody_escChar (c : Char) (X : List Char) :
    parseStrBody (escChar c ++ X) = (parseStrBody X).map (fun p => (c :: p.1, p.2)) := by
  rw [escChar]
  split_ifs with h1 h2 h3 h4 h5 h6 h7 h8
  · subst h1; rfl
  · subst h2; rfl
  · subst h3; rfl
  · subst h4; rfl
  · subst h5; rfl
  · subst h6; rfl
  · subst h7; rfl
  · -- the \u00XX escape of a control character
    have hhi : c.toNat / 16 < 16 := by omega
    have hlo : c.toNat % 16 < 16 := by omega
    rw [List.cons_append]
    rw [show ('u' :: '0' :: '0' :: hexDigitChar (c.toNat / 16) ::
        hexDigitChar (c.toNat % 16) :: []) ++ X
      = 'u' :: '0' :: '0' :: hexDigitChar (c.toNat / 16) ::
        hexDigitChar (c.toNat % 16) :: X from rfl]
    rw [parseStrBody_unicode _ _ _ _ 0 0 (c.toNat / 16) (c.toNat % 16) X (by decide) (by decide)
      (parseHex_hexDigitChar hhi) (parseHex_hexDigitChar hlo)]
    have harith : ((0 * 16 + 0) * 16 + c.toNat / 16) * 16 + c.toNat % 16 = c.toNat := by omega
    rw [harith, Char.ofNat_toNat]
  · -- an unescaped character
    rw [List.cons_append, List.nil_append, parseStrBody.eq_def]
    split
    · rename_i heq
      exact absurd heq (List.cons_ne_nil c X)
    · rename_i heq
      injection heq with hc _
      exact absurd hc h1
    · rename_i heq
      injection heq with hc _
      exact absurd hc h2
    · rename_i heq
      injection heq with hc _
      exact absurd hc h2
    · rename_i c' rest' heq
      injection heq with hc hX
      subst hc
      rw [hX, if_neg h8]

/-- The string codec round-trip: parsing an escaped body recovers it up to
the closing quote. -/
theorem parseStrBody_escString (cs : List Char) :
    ∀ rest, parseStrBody (escString cs ++ '"' :: rest) = some (cs, rest) := by
  induction cs with
  | nil => intro rest; rfl
  | cons c t ih =>
    intro rest
    have hesc : escString (c :: t) = escChar c ++ escString t := by
      rw [escString, escString, List.map_cons, List.flatten_cons]
    rw [hesc, List.append_assoc, parseStrBody_escChar, ih rest]
    rfl

/-! ## Whitespace and dispatch lemmas for the value round-trip -/

theorem skipWs_ws_append {pre : List Char} (cs : List Char)
    (h : ∀ c ∈ pre, jsonWsChar c = true) : skipWs (pre ++ cs) = skipWs cs := by
  induction pre with
  | nil => rfl
  | cons p t ih =>
    rw [List.cons_append, skipWs, List.dropWhile_cons,
      if_pos (h p (List.mem_cons_self p t))]
    exact ih (fun c hc => h c (List.mem_cons_of_mem p hc))

theorem nlIndent_ws (ind : ℕ) : ∀ c ∈ nlIndent ind, jsonWsChar c = true := by
  intro c hc
  rcases List.mem_cons.mp hc with rfl | hc
  · rfl
  · rcases List.eq_of_mem_replicate hc with rfl
    rfl

theorem skipWs_nlIndent (ind : ℕ) (cs : List Char) :
    skipWs (nlIndent ind ++ cs) = skipWs cs :=
  skipWs_ws_append cs (nlIndent_ws ind)

theorem skipWs_not_ws {c : Char} (t : List Char) (h : jsonWsChar c = false) :
    skipWs (c :: t) = c :: t := by
  rw [skipWs, List.dropWhile_cons, if_neg (by simp [h])]

/-- Character facts needed to steer the parser's literal-pattern matches. -/
theorem digit_starter {c : Char} (h : pyIsDigit c = true) :
    jsonWsChar c = false ∧ c ≠ 'n' ∧ c ≠ 't' ∧ c ≠ 'f' ∧ c ≠ '"' ∧ c ≠ '[' ∧
      c ≠ '\x7b' ∧ c ≠ ']' ∧ c ≠ '\x7d' ∧ c ≠ ',' ∧ c ≠ ':' := by
  refine ⟨?_, ?_, ?_, ?_, ?_, ?_, ?_, ?_, ?_, ?_, ?_⟩
  · simp only [pyIsDigit, Bool.and_eq_true, decide_eq_true_eq] at h
    simp only [jsonWsChar, Bool.or_eq_false_iff, decide_eq_false_iff_not]
    have h48 : 48 ≤ c.toNat := h.1
    refine ⟨⟨⟨?_, ?_⟩, ?_⟩, ?_⟩ <;> (intro he; subst he; revert h48; decide)
  all_goals (intro he; subst he; exact absurd h (by decide))

/-- Every rendered number begins with `'-'` or a digit. -/
theorem ratReprChars_head (q : ℚ) :
    ∃ c t, ratReprChars q = c :: t ∧ (c = '-' ∨ pyIsDigit c = true) := by
  rw [ratReprChars]
  by_cases hneg : q.num < 0
  · rw [if_pos hneg]
    exact ⟨'-', _, rfl, Or.inl rfl⟩
  · rw [if_neg hneg]
    obtain ⟨c, t, hct⟩ := List.exists_cons_of_ne_nil
      (natDigits_ne_nil (((q.num * 10 ^ (max ((findPow10 q.den).getD 0) 1) / (q.den : ℤ)).natAbs) / 10 ^ (max ((findPow10 q.den).getD 0) 1)))
    rw [List.nil_append, hct, List.cons_append]
    exact ⟨c, _, rfl, Or.inr (natDigits_digits _ c (by rw [hct]; exact List.mem_cons_self _ _))⟩

/-- `parseValue` falls through its literal-keyword arms to the number arm. -/
theorem parseValue_to_number (f : ℕ) (cs : List Char) {c : Char} {t : List Char}
    (hskip : skipWs cs = c :: t)
    (hn : c ≠ 'n') (ht : c ≠ 't') (hf : c ≠ 'f') (hq : c ≠ '"') (hlb : c ≠ '[')
    (hob : c ≠ '\x7b') :
    parseValue (f + 1) cs = (parseNumber (c :: t)).map (fun p => (.num p.1, p.2)) := by
  rw [parseValue, hskip]
  split
  · rename_i heq
    injection heq with hc _
    exact absurd hc hn
  · rename_i heq
    injection heq with hc _
    exact absurd hc ht
  · rename_i heq
    injection heq with hc _
    exact absurd hc hf
  · rename_i heq
    injection heq with hc _
    exact absurd hc hq
  · rename_i heq
    injection heq with hc _
    exact absurd hc hlb
  · rename_i heq
    injection heq with hc _
    exact absurd hc hob
  · rfl

/-- `parseArrBody` on input whose first meaningful character is not `']'`
delegates to `parseValue` and `parseArrTail`. -/
theorem parseArrBody_not_close (g : ℕ) (cs : List Char) {c : Char} {t : List Char}
    (hskip : skipWs cs = c :: t) (hc : c ≠ ']') :
    parseArrBody (g + 1) cs
      = (match parseValue g (c :: t) with
         | none => none
         | some (v, r) =>
           match parseArrTail g r with
           | none => none
           | some (vs, r') => some (v :: vs, r')) := by
  rw [parseArrBody, hskip]
  split
  · rename_i heq
    injection heq with hc' _
    exact absurd hc' hc
  · rfl

mutual

/-- Serialisability side condition for the round-trip: every number's
denominator divides a power of 10 (true of every Python float, hence of
every value the script dumps; the characters of strings are unrestricted). -/
def jsonWf : Json → Bool
  | .null => true
  | .bool _ => true
  | .num q => (findPow10 q.den).isSome
  | .str _ => true
  | .arr xs => jsonListWf xs
  | .obj kvs => jsonMembersWf kvs

def jsonListWf : List Json → Bool
  | [] => true
  | x :: xs => jsonWf x && jsonListWf xs

def jsonMembersWf : List (String × Json) → Bool
  | [] => true
  | kv :: kvs => jsonWf kv.2 && jsonMembersWf kvs

end

theorem nlIndent_length (ind : ℕ) : (nlIndent ind).length = 4 * ind + 1 := by
  simp [nlIndent]

/-- Every rendered value begins with a character that is neither
whitespace nor a closing delimiter nor a comma. -/
theorem serValue_head (ind : ℕ) (v : Json) :
    ∃ c t, serValue ind v = c :: t ∧ jsonWsChar c = false ∧ c ≠ ']' ∧ c ≠ '\x7d' ∧ c ≠ ',' := by
  cases v with
  | null => exact ⟨'n', _, rfl, rfl, by decide, by decide, by decide⟩
  | bool b =>
    cases b with
    | true => exact ⟨'t', _, rfl, rfl, by decide, by decide, by decide⟩
    | false => exact ⟨'f', _, rfl, rfl, by decide, by decide, by decide⟩
  | str s => exact ⟨'"', _, rfl, rfl, by decide, by decide, by decide⟩
  | num q =>
    obtain ⟨c, t, hct, hc⟩ := ratReprChars_head q
    refine ⟨c, t, by rw [serValue, hct], ?_, ?_, ?_, ?_⟩
    · rcases hc with rfl | hd
      · rfl
      · exact (digit_starter hd).1
    · rcases hc with rfl | hd
      · decide
      · exact (digit_starter hd).2.2.2.2.2.2.2.1
    · rcases hc with rfl | hd
      · decide
      · exact (digit_starter hd).2.2.2.2.2.2.2.2.1
    · rcases hc with rfl | hd
      · decide
      · exact (digit_starter hd).2.2.2.2.2.2.2.2.2.1
  | arr xs =>
    cases xs with
    | nil => exact ⟨'[', _, rfl, rfl, by decide, by decide, by decide⟩
    | cons x xs => exact ⟨'[', _, rfl, rfl, by decide, by decide, by decide⟩
  | obj kvs =>
    cases kvs with
    | nil => exact ⟨'\x7b', _, rfl, rfl, by decide, by decide, by decide⟩
    | cons kv kvs => exact ⟨'\x7b', _, rfl, rfl, by decide, by decide, by decide⟩

theorem skipWs_serValue (ind : ℕ) (v : Json) (x : List Char) :
    skipWs (serValue ind v ++ x) = serValue ind v ++ x := by
  obtain ⟨c, t, hct, hws, -, -, -⟩ := serValue_head ind v
  rw [hct, List.cons_append, skipWs_not_ws _ hws]

theorem parseValue_ws (fuel : ℕ) {pre : List Char} (cs : List Char)
    (h : ∀ c ∈ pre, jsonWsChar c = true) :
    parseValue fuel (pre ++ cs) = parseValue fuel cs := by
  cases fuel with
  | zero => rfl
  | succ f => simp only [parseValue, skipWs_ws_append cs h]

theorem parseArrTail_ws (fuel : ℕ) {pre : List Char} (cs : List Char)
    (h : ∀ c ∈ pre, jsonWsChar c = true) :
    parseArrTail fuel (pre ++ cs) = parseArrTail fuel cs := by
  cases fuel with
  | zero => rfl
  | succ f => simp only [parseArrTail, skipWs_ws_append cs h]

theorem parseObjTail_ws (fuel : ℕ) {pre : List Char} (cs : List Char)
    (h : ∀ c ∈ pre, jsonWsChar c = true) :
    parseObjTail fuel (pre ++ cs) = parseObjTail fuel cs := by
  cases fuel with
  | zero => rfl
  | succ f => simp only [parseObjTail, skipWs_ws_append cs h]

theorem serElemsRest_delim (i j : ℕ) (xs : List Json) (X : List Char) :
    numDelim (serElemsRest i xs ++ (nlIndent j ++ X)) = true := by
  cases xs with
  | nil => rw [serElemsRest, List.nil_append, nlIndent]; rfl
  | cons x xs => rw [serElemsRest, List.cons_append]; rfl

theorem serMembersRest_delim (i j : ℕ) (kvs : List (String × Json)) (X : List Char) :
    numDelim (serMembersRest i kvs ++ (nlIndent j ++ X)) = true := by
  cases kvs with
  | nil => rw [serMembersRest, List.nil_append, nlIndent]; rfl
  | cons kv kvs => rw [serMembersRest, List.cons_append]; rfl

theorem serMember_length (ind : ℕ) (kv : String × Json) :
    (serMember ind kv).length = (escString kv.1.data).length + 4 + (serValue ind kv.2).length := by
  simp [serMember, serStr]
  omega

/-! Big-step dispatch lemmas: each one runs a parser one level, with the
sub-parses supplied as hypotheses, so the round-trip induction below only
ever rewrites with fully-applied equations. -/

theorem parseValue_quote (f : ℕ) (cs : List Char) {r k r1 : List Char}
    (hskip : skipWs cs = '"' :: r) (hstr : parseStrBody r = some (k, r1)) :
    parseValue (f + 1) cs = some (.str (String.mk k), r1) := by
  rw [parseValue, hskip]
  simp only [hstr]
  rfl

theorem parseValue_lbracket (f : ℕ) (cs : List Char) {r r1 : List Char} {xs : List Json}
    (hskip : skipWs cs = '[' :: r) (hbody : parseArrBody f r = some (xs, r1)) :
    parseValue (f + 1) cs = some (.arr xs, r1) := by
  rw [parseValue, hskip]
  simp only [hbody]
  rfl

theorem parseValue_lbrace (f : ℕ) (cs : List Char) {r r1 : List Char}
    {kvs : List (String × Json)}
    (hskip : skipWs cs = '\x7b' :: r) (hbody : parseObjBody f r = some (kvs, r1)) :
    parseValue (f + 1) cs = some (.obj kvs, r1) := by
  rw [parseValue, hskip]
  simp only [hbody]
  rfl

theorem parseArrBody_close (g : ℕ) (cs : List Char) {r : List Char}
    (hskip : skipWs cs = ']' :: r) :
    parseArrBody (g + 1) cs = some ([], r) := by
  have h1 : parseArrBody (g + 1) cs
      = (match skipWs cs with
         | ']' :: rest => some (([] : List Json), rest)
         | other =>
           match parseValue g other with
           | none => none
           | some (v, r) =>
             match parseArrTail g r with
             | none => none
             | some (vs, r') => some (v :: vs, r')) := rfl
  rw [h1]
  simp only [hskip]

theorem parseArrBody_elems (g : ℕ) (cs : List Char) {c : Char} {t r1 r2 : List Char}
    {v : Json} {vs : List Json}
    (hskip : skipWs cs = c :: t) (hc : c ≠ ']')
    (hval : parseValue g (c :: t) = some (v, r1))
    (htail : parseArrTail g r1 = some (vs, r2)) :
    parseArrBody (g + 1) cs = some (v :: vs, r2) := by
  rw [parseArrBody_not_close g cs hskip hc]
  simp only [hval, htail]

theorem parseArrTail_close (g : ℕ) (cs : List Char) {r : List Char}
    (hskip : skipWs cs = ']' :: r) :
    parseArrTail (g + 1) cs = some ([], r) := by
  have h1 : parseArrTail (g + 1) cs
      = (match skipWs cs with
         | ',' :: rest =>
           (match parseValue g rest with
            | none => none
            | some (v, r) =>
              match parseArrTail g r with
              | none => none
              | some (vs, r') => some (v :: vs, r'))
         | ']' :: rest => some ([], rest)
         | _ => none) := rfl
  rw [h1]
  simp only [hskip]

theorem parseArrTail_elems (g : ℕ) (cs : List Char) {t r1 r2 : List Char}
    {v : Json} {vs : List Json}
    (hskip : skipWs cs = ',' :: t)
    (hval : parseValue g t = some (v, r1))
    (htail : parseArrTail g r1 = some (vs, r2)) :
    parseArrTail (g + 1) cs = some (v :: vs, r2) := by
  have h1 : parseArrTail (g + 1) cs
      = (match skipWs cs with
         | ',' :: rest =>
           (match parseValue g rest with
            | none => none
            | some (v, r) =>
              match parseArrTail g r with
              | none => none
              | some (vs, r') => some (v :: vs, r'))
         | ']' :: rest => some ([], rest)
         | _ => none) := rfl
  rw [h1]
  simp only [hskip, hval, htail]

theorem parseObjBody_close (g : ℕ) (cs : List Char) {r : List Char}
    (hskip : skipWs cs = '\x7d' :: r) :
    parseObjBody (g + 1) cs = some ([], r) := by
  have h1 : parseObjBody (g + 1) cs
      = (match skipWs cs with
         | '\x7d' :: rest => some (([] : List (String × Json)), rest)
         | '"' :: rest =>
           (match parseStrBody rest with
            | none => none
            | some (k, r1) =>
              match skipWs r1 with
              | ':' :: r2 =>
                (match parseValue g r2 with
                 | none => none
                 | some (v, r3) =>
                   match parseObjTail g r3 with
                   | none => none
                   | some (kvs, r') => some ((String.mk k, v) :: kvs, r'))
              | _ => none)
         | _ => none) := rfl
  rw [h1]
  simp only [hskip]

theorem parseObjBody_member (g : ℕ) (cs : List Char) {r k r1 r2 r3 r4 : List Char}
    {v : Json} {kvs : List (String × Json)}
    (hskip : skipWs cs = '"' :: r)
    (hstr : parseStrBody r = some (k, r1))
    (hcolon : skipWs r1 = ':' :: r2)
    (hval : parseValue g r2 = some (v, r3))
    (htail : parseObjTail g r3 = some (kvs, r4)) :
    parseObjBody (g + 1) cs = some ((String.mk k, v) :: kvs, r4) := by
  have h1 : parseObjBody (g + 1) cs
      = (match skipWs cs with
         | '\x7d' :: rest => some (([] : List (String × Json)), rest)
         | '"' :: rest =>
           (match parseStrBody rest with
            | none => none
            | some (k, r1) =>
              match skipWs r1 with
              | ':' :: r2 =>
                (match parseValue g r2 with
                 | none => none
                 | some (v, r3) =>
                   match parseObjTail g r3 with
                   | none => none
                   | some (kvs, r') => some ((String.mk k, v) :: kvs, r'))
              | _ => none)
         | _ => none) := rfl
  rw [h1]
  simp only [hskip, hstr, hcolon, hval, htail]

theorem parseObjTail_close (g : ℕ) (cs : List Char) {r : List Char}
    (hskip : skipWs cs = '\x7d' :: r) :
    parseObjTail (g + 1) cs = some ([], r) := by
  have h1 : parseObjTail (g + 1) cs
      = (match skipWs cs with
         | ',' :: rest =>
           (match skipWs rest with
            | '"' :: r0 =>
              (match parseStrBody r0 with
               | none => none
               | some (k, r1) =>
                 match skipWs r1 with
                 | ':' :: r2 =>
                   (match parseValue g r2 with
                    | none => none
                    | some (v, r3) =>
                      match parseObjTail g r3 with
                      | none => none
                      | some (kvs, r') => some ((String.mk k, v) :: kvs, r'))
                 | _ => none)
            | _ => none)
         | '\x7d' :: rest => some ([], rest)
         | _ => none) := rfl
  rw [h1]
  simp only [hskip]

theorem parseObjTail_member (g : ℕ) (cs : List Char) {t r0 k r1 r2 r3 r4 : List Char}
    {v : Json} {kvs : List (String × Json)}
    (hskip : skipWs cs = ',' :: t)
    (hquote : skipWs t = '"' :: r0)
    (hstr : parseStrBody r0 = some (k, r1))
    (hcolon : skipWs r1 = ':' :: r2)
    (hval : parseValue g r2 = some (v, r3))
    (htail : parseObjTail g r3 = some (kvs, r4)) :
    parseObjTail (g + 1) cs = some ((String.mk k, v) :: kvs, r4) := by
  have h1 : parseObjTail (g + 1) cs
      = (match skipWs cs with
         | ',' :: rest =>
           (match skipWs rest with
            | '"' :: r0 =>
              (match parseStrBody r0 with
               | none => none
               | some (k, r1) =>
                 match skipWs r1 with
                 | ':' :: r2 =>
                   (match parseValue g r2 with
                    | none => none
                    | some (v, r3) =>
                      match parseObjTail g r3 with
                      | none => none
                      | some (kvs, r') => some ((String.mk k, v) :: kvs, r'))
                 | _ => none)
            | _ => none)
         | '\x7d' :: rest => some ([], rest)
         | _ => none) := rfl
  rw [h1]
  simp only [hskip, hquote, hstr, hcolon, hval, htail]

mutual

/-- The value round-trip: parsing a rendered value (with any fuel beyond
its length, and any remainder that cannot extend a number) recovers the
value and the remainder. -/
theorem rt_value : ∀ (v : Json) (ind fuel : ℕ) (rest : List Char),
    jsonWf v = true → numDelim rest = true → (serValue ind v).length < fuel →
    parseValue fuel (serValue ind v ++ rest) = some (v, rest)
  | .null, ind, fuel, rest, _, _, hlen => by
    have hs : serValue ind .null = ['n', 'u', 'l', 'l'] := by simp [serValue]
    rw [hs] at hlen ⊢
    cases fuel with
    | zero => simp at hlen
    | succ f =>
      rw [List.cons_append, parseValue, skipWs_not_ws _ (by decide)]
      rfl
  | .bool true, ind, fuel, rest, _, _, hlen => by
    have hs : serValue ind (.bool true) = ['t', 'r', 'u', 'e'] := by simp [serValue]
    rw [hs] at hlen ⊢
    cases fuel with
    | zero => simp at hlen
    | succ f =>
      rw [List.cons_append, parseValue, skipWs_not_ws _ (by decide)]
      rfl
  | .bool false, ind, fuel, rest, _, _, hlen => by
    have hs : serValue ind (.bool false) = ['f', 'a', 'l', 's', 'e'] := by simp [serValue]
    rw [hs] at hlen ⊢
    cases fuel with
    | zero => simp at hlen
    | succ f =>
      rw [List.cons_append, parseValue, skipWs_not_ws _ (by decide)]
      rfl
  | .num q, ind, fuel, rest, hwf, hrest, hlen => by
    have hs : serValue ind (.num q) = ratReprChars q := by simp [serValue]
    rw [hs] at hlen ⊢
    have hwf' : (findPow10 q.den).isSome = true := by simpa [jsonWf] using hwf
    cases fuel with
    | zero => omega
    | succ f =>
      obtain ⟨c, t, hct, hc⟩ := ratReprChars_head q
      have hws : jsonWsChar c = false := by
        rcases hc with rfl | hd
        · rfl
        · exact (digit_starter hd).1
      have hskip : skipWs (ratReprChars q ++ rest) = c :: (t ++ rest) := by
        rw [hct, List.cons_append, skipWs_not_ws _ hws]
      rcases hc with rfl | hd
      · rw [parseValue_to_number f _ hskip (by decide) (by decide) (by decide) (by decide)
          (by decide) (by decide), ← List.cons_append, ← hct,
          parseNumber_ratRepr q hwf' rest hrest]
        rfl
      · obtain ⟨-, hn, ht', hf', hq', hlb, hob, -⟩ := digit_starter hd
        rw [parseValue_to_number f _ hskip hn ht' hf' hq' hlb hob, ← List.cons_append, ← hct,
          parseNumber_ratRepr q hwf' rest hrest]
        rfl
  | .str s, ind, fuel, rest, _, _, hlen => by
    have hs : serValue ind (.str s) = '"' :: (escString s.data ++ ['"']) := by
      simp [serValue, serStr]
    rw [hs] at hlen ⊢
    cases fuel with
    | zero => simp at hlen
    | succ f =>
      have hre : ('"' :: (escString s.data ++ ['"'])) ++ rest
          = '"' :: (escString s.data ++ '"' :: rest) := by
        simp
      rw [hre]
      exact parseValue_quote f _ (skipWs_not_ws _ (by decide)) (parseStrBody_escString _ _)
  | .arr [], ind, fuel, rest, _, _, hlen => by
    have hs : serValue ind (.arr []) = ['[', ']'] := by simp [serValue]
    rw [hs] at hlen ⊢
    cases fuel with
    | zero => simp at hlen
    | succ f =>
      cases f with
      | zero => simp at hlen
      | succ g =>
        rw [show ((['[', ']'] : List Char) ++ rest) = '[' :: (']' :: rest) from rfl]
        exact parseValue_lbracket (g + 1) _ (skipWs_not_ws _ (by decide))
          (parseArrBody_close g _ (skipWs_not_ws _ (by decide)))
  | .arr (x :: xs), ind, fuel, rest, hwf, hrest, hlen => by
    have hwfx : jsonWf x = true ∧ jsonListWf xs = true := by
      simpa [jsonWf, jsonListWf, Bool.and_eq_true] using hwf
    have hs : serValue ind (.arr (x :: xs))
        = '[' :: (nlIndent (ind + 1) ++ (serValue (ind + 1) x ++ (serElemsRest (ind + 1) xs ++
            (nlIndent ind ++ [']'])))) := by
      simp [serValue, List.append_assoc]
    rw [hs] at hlen ⊢
    simp only [List.length_cons, List.length_append, List.length_nil, nlIndent_length] at hlen
    cases fuel with
    | zero => omega
    | succ f =>
      cases f with
      | zero => omega
      | succ g =>
        have hre : ('[' :: (nlIndent (ind + 1) ++ (serValue (ind + 1) x ++
            (serElemsRest (ind + 1) xs ++ (nlIndent ind ++ [']']))))) ++ rest
            = '[' :: (nlIndent (ind + 1) ++ (serValue (ind + 1) x ++ (serElemsRest (ind + 1) xs ++
              (nlIndent ind ++ (']' :: rest))))) := by
          simp
        rw [hre]
        obtain ⟨c, t, hct, hws, hcrb, -, -⟩ := serValue_head (ind + 1) x
        have hskip : skipWs (nlIndent (ind + 1) ++ (serValue (ind + 1) x ++
            (serElemsRest (ind + 1) xs ++ (nlIndent ind ++ (']' :: rest)))))
            = c :: (t ++ (serElemsRest (ind + 1) xs ++ (nlIndent ind ++ (']' :: rest)))) := by
          rw [skipWs_nlIndent, hct, List.cons_append, skipWs_not_ws _ hws]
        have hval : parseValue g
            (c :: (t ++ (serElemsRest (ind + 1) xs ++ (nlIndent ind ++ (']' :: rest)))))
            = some (x, serElemsRest (ind + 1) xs ++ (nlIndent ind ++ (']' :: rest))) := by
          rw [← List.cons_append, ← hct]
          exact rt_value x (ind + 1) g _ hwfx.1 (serElemsRest_delim _ _ _ _) (by omega)
        have htail : parseArrTail g
            (serElemsRest (ind + 1) xs ++ (nlIndent ind ++ (']' :: rest)))
            = some (xs, rest) :=
          rt_arrtail xs ind g rest hwfx.2 (by omega)
        exact parseValue_lbracket (g + 1) _ (skipWs_not_ws _ (by decide))
          (parseArrBody_elems g _ hskip hcrb hval htail)
  | .obj [], ind, fuel, rest, _, _, hlen => by
    have hs : serValue ind (.obj []) = ['\x7b', '\x7d'] := by simp [serValue]
    rw [hs] at hlen ⊢
    cases fuel with
    | zero => simp at hlen
    | succ f =>
      cases f with
      | zero => simp at hlen
      | succ g =>
        rw [show ((['\x7b', '\x7d'] : List Char) ++ rest) = '\x7b' :: ('\x7d' :: rest) from rfl]
        exact parseValue_lbrace (g + 1) _ (skipWs_not_ws _ (by decide))
          (parseObjBody_close g _ (skipWs_not_ws _ (by decide)))
  | .obj (⟨ks, w⟩ :: kvs), ind, fuel, rest, hwf, hrest, hlen => by
    have hwfx : jsonWf w = true ∧ jsonMembersWf kvs = true := by
      simpa [jsonWf, jsonMembersWf, Bool.and_eq_true] using hwf
    have hs : serValue ind (.obj (⟨ks, w⟩ :: kvs))
        = '\x7b' :: (nlIndent (ind + 1) ++ ('"' :: (escString ks.data ++ ('"' :: (':' :: (' ' ::
            (serValue (ind + 1) w ++ (serMembersRest (ind + 1) kvs ++
              (nlIndent ind ++ ['\x7d'])))))))))  := by
      simp [serValue, serMember, serStr, escString, List.append_assoc]
    rw [hs] at hlen ⊢
    simp only [List.length_cons, List.length_append, List.length_nil, nlIndent_length] at hlen
    cases fuel with
    | zero => omega
    | succ f =>
      cases f with
      | zero => omega
      | succ g =>
        have hre : ('\x7b' :: (nlIndent (ind + 1) ++ ('"' :: (escString ks.data ++ ('"' ::
            (':' :: (' ' :: (serValue (ind + 1) w ++ (serMembersRest (ind + 1) kvs ++
              (nlIndent ind ++ ['\x7d'])))))))))) ++ rest
            = '\x7b' :: (nlIndent (ind + 1) ++ ('"' :: (escString ks.data ++ ('"' :: (':' ::
              (' ' :: (serValue (ind + 1) w ++ (serMembersRest (ind + 1) kvs ++
                (nlIndent ind ++ ('\x7d' :: rest)))))))))) := by
          simp
        rw [hre]
        have hquote : skipWs (nlIndent (ind + 1) ++ ('"' :: (escString ks.data ++ ('"' :: (':' ::
            (' ' :: (serValue (ind + 1) w ++ (serMembersRest (ind + 1) kvs ++
              (nlIndent ind ++ ('\x7d' :: rest))))))))))
            = '"' :: (escString ks.data ++ ('"' :: (':' :: (' ' :: (serValue (ind + 1) w ++
              (serMembersRest (ind + 1) kvs ++ (nlIndent ind ++ ('\x7d' :: rest)))))))) := by
          rw [skipWs_nlIndent, skipWs_not_ws _ (by decide)]
        have hstr : parseStrBody (escString ks.data ++ ('"' :: (':' :: (' ' ::
            (serValue (ind + 1) w ++ (serMembersRest (ind + 1) kvs ++
              (nlIndent ind ++ ('\x7d' :: rest))))))))
            = some (ks.data, ':' :: (' ' :: (serValue (ind + 1) w ++
              (serMembersRest (ind + 1) kvs ++ (nlIndent ind ++ ('\x7d' :: rest)))))) :=
          parseStrBody_escString _ _
        have hval : parseValue g (' ' :: (serValue (ind + 1) w ++
            (serMembersRest (ind + 1) kvs ++ (nlIndent ind ++ ('\x7d' :: rest)))))
            = some (w, serMembersRest (ind + 1) kvs ++ (nlIndent ind ++ ('\x7d' :: rest))) := by
          rw [show (' ' :: (serValue (ind + 1) w ++ (serMembersRest (ind + 1) kvs ++
              (nlIndent ind ++ ('\x7d' :: rest)))))
            = [' '] ++ (serValue (ind + 1) w ++ (serMembersRest (ind + 1) kvs ++
              (nlIndent ind ++ ('\x7d' :: rest)))) from rfl]
          rw [parseValue_ws g _ (by intro c hc; rcases List.mem_singleton.mp hc with rfl; rfl)]
          exact rt_value w (ind + 1) g _ hwfx.1 (serMembersRest_delim _ _ _ _) (by omega)
        have htail : parseObjTail g
            (serMembersRest (ind + 1) kvs ++ (nlIndent ind ++ ('\x7d' :: rest)))
            = some (kvs, rest) :=
          rt_objtail kvs ind g rest hwfx.2 (by omega)
        exact parseValue_lbrace (g + 1) _ (skipWs_not_ws _ (by decide))
          (parseObjBody_member g _ hquote hstr (skipWs_not_ws _ (by decide)) hval htail)
  termination_by v _ _ _ _ _ _ => sizeOf v

/-- The array-tail round-trip: after the first element, the remaining
rendered items, the closing indent and `']'` parse back to the list. -/
theorem rt_arrtail : ∀ (xs : List Json) (ind fuel : ℕ) (rest : List Char),
    jsonListWf xs = true →
    (serElemsRest (ind + 1) xs).length + 2 ≤ fuel →
    parseArrTail fuel (serElemsRest (ind + 1) xs ++ (nlIndent ind ++ (']' :: rest)))
      = some (xs, rest)
  | [], ind, fuel, rest, _, hlen => by
    rw [serElemsRest, List.nil_append]
    cases fuel with
    | zero => omega
    | succ f =>
      exact parseArrTail_close f _ (by rw [skipWs_nlIndent, skipWs_not_ws _ (by decide)])
  | x :: xs, ind, fuel, rest, hwf, hlen => by
    have hwfx : jsonWf x = true ∧ jsonListWf xs = true := by
      simpa [jsonListWf, Bool.and_eq_true] using hwf
    rw [serElemsRest] at hlen ⊢
    simp only [List.length_cons, List.length_append, nlIndent_length] at hlen
    cases fuel with
    | zero => omega
    | succ g =>
      have hre : (',' :: (nlIndent (ind + 1) ++ serValue (ind + 1) x ++
          serElemsRest (ind + 1) xs)) ++ (nlIndent ind ++ (']' :: rest))
          = ',' :: (nlIndent (ind + 1) ++ (serValue (ind + 1) x ++ (serElemsRest (ind + 1) xs ++
            (nlIndent ind ++ (']' :: rest))))) := by
        simp
      rw [hre]
      have hval : parseValue g (nlIndent (ind + 1) ++ (serValue (ind + 1) x ++
          (serElemsRest (ind + 1) xs ++ (nlIndent ind ++ (']' :: rest)))))
          = some (x, serElemsRest (ind + 1) xs ++ (nlIndent ind ++ (']' :: rest))) := by
        rw [parseValue_ws g _ (nlIndent_ws (ind + 1))]
        exact rt_value x (ind + 1) g _ hwfx.1 (serElemsRest_delim _ _ _ _) (by omega)
      have htail : parseArrTail g
          (serElemsRest (ind + 1) xs ++ (nlIndent ind ++ (']' :: rest)))
          = some (xs, rest) :=
        rt_arrtail xs ind g rest hwfx.2 (by omega)
      exact parseArrTail_elems g _ (skipWs_not_ws _ (by decide)) hval htail
  termination_by xs _ _ _ _ _ => sizeOf xs

/-- The object-tail round-trip, the member analogue of `rt_arrtail`. -/
theorem rt_objtail : ∀ (kvs : List (String × Json)) (ind fuel : ℕ) (rest : List Char),
    jsonMembersWf kvs = true →
    (serMembersRest (ind + 1) kvs).length + 2 ≤ fuel →
    parseObjTail fuel (serMembersRest (ind + 1) kvs ++ (nlIndent ind ++ ('\x7d' :: rest)))
      = some (kvs, rest)
  | [], ind, fuel, rest, _, hlen => by
    rw [serMembersRest, List.nil_append]
    cases fuel with
    | zero => omega
    | succ f =>
      exact parseObjTail_close f _ (by rw [skipWs_nlIndent, skipWs_not_ws _ (by decide)])
  | ⟨ks, w⟩ :: kvs, ind, fuel, rest, hwf, hlen => by
    have hwfx : jsonWf w = true ∧ jsonMembersWf kvs = true := by
      simpa [jsonMembersWf, Bool.and_eq_true] using hwf
    rw [serMembersRest] at hlen ⊢
    simp only [List.length_cons, List.length_append, List.length_nil, nlIndent_length,
      serMember_length] at hlen
    cases fuel with
    | zero => omega
    | succ g =>
      have hre : (',' :: (nlIndent (ind + 1) ++ serMember (ind + 1) (ks, w) ++
          serMembersRest (ind + 1) kvs)) ++ (nlIndent ind ++ ('\x7d' :: rest))
          = ',' :: (nlIndent (ind + 1) ++ ('"' :: (escString ks.data ++ ('"' :: (':' :: (' ' ::
            (serValue (ind + 1) w ++ (serMembersRest (ind + 1) kvs ++
              (nlIndent ind ++ ('\x7d' :: rest)))))))))) := by
        simp [serMember, serStr, escString, List.append_assoc]
      rw [hre]
      have hquote : skipWs (nlIndent (ind + 1) ++ ('"' :: (escString ks.data ++ ('"' :: (':' ::
          (' ' :: (serValue (ind + 1) w ++ (serMembersRest (ind + 1) kvs ++
            (nlIndent ind ++ ('\x7d' :: rest))))))))))
          = '"' :: (escString ks.data ++ ('"' :: (':' :: (' ' :: (serValue (ind + 1) w ++
            (serMembersRest (ind + 1) kvs ++ (nlIndent ind ++ ('\x7d' :: rest)))))))) := by
        rw [skipWs_nlIndent, skipWs_not_ws _ (by decide)]
      have hval : parseValue g (' ' :: (serValue (ind + 1) w ++
          (serMembersRest (ind + 1) kvs ++ (nlIndent ind ++ ('\x7d' :: rest)))))
          = some (w, serMembersRest (ind + 1) kvs ++ (nlIndent ind ++ ('\x7d' :: rest))) := by
        rw [show (' ' :: (serValue (ind + 1) w ++ (serMembersRest (ind + 1) kvs ++
            (nlIndent ind ++ ('\x7d' :: rest)))))
          = [' '] ++ (serValue (ind + 1) w ++ (serMembersRest (ind + 1) kvs ++
            (nlIndent ind ++ ('\x7d' :: rest)))) from rfl]
        rw [parseValue_ws g _ (by intro c hc; rcases List.mem_singleton.mp hc with rfl; rfl)]
        exact rt_value w (ind + 1) g _ hwfx.1 (serMembersRest_delim _ _ _ _) (by omega)
      have htail : parseObjTail g
          (serMembersRest (ind + 1) kvs ++ (nlIndent ind ++ ('\x7d' :: rest)))
          = some (kvs, rest) :=
        rt_objtail kvs ind g rest hwfx.2 (by omega)
      have hfin := parseObjTail_member g _ (skipWs_not_ws _ (by decide)) hquote
        (parseStrBody_escString _ _) (skipWs_not_ws _ (by decide)) hval htail
      rw [hfin]
  termination_by kvs _ _ _ _ _ => sizeOf kvs

end

/-- Top-level codec round-trip: a well-formed value survives
`json.dump` followed by `json.load`. -/
theorem loads_dumps (v : Json) (hwf : jsonWf v = true) : loads (dumps v) = some v := by
  have hdata : (dumps v).data = serValue 0 v := rfl
  unfold loads
  rw [hdata]
  have h := rt_value v 0 ((serValue 0 v).length + 1) [] hwf rfl (by omega)
  rw [List.append_nil] at h
  rw [h]
  rfl

/-- `json.dump(self.properties, f, ensure_ascii=False, indent=4)`: the saved
file content for a list of records (line 327-330 of the script). -/
def dumpRecords (rs : List PyDict) : String := dumps (.arr (rs.map .obj))

/-- Loading the output file back (lines 222-233): `json.load` followed by the
`isinstance(data, list)` check; anything other than a JSON array is dropped. -/
def loadRecords (s : String) : Option (List Json) :=
  match loads s with
  | some (.arr l) => some l
  | _ => none

/-- Well-formedness of a saved record set: every numeric field has a
denominator dividing a power of ten (true of every value the scraper
produces, which are decimal price values). -/
def recordsWf (rs : List PyDict) : Bool := jsonListWf (rs.map .obj)

/-! ## Helper lemmas about the scraper's functions -/

/-- The save phase proceeds to the pagination check exactly when the page
yielded records. -/
theorem savePage_snd (w b : Bool) (st : IterState) (ls : List PyDict) :
    (savePage w b st ls).2 = !ls.isEmpty := by
  unfold savePage
  cases hl : ls.isEmpty
  · simp only [hl, Bool.false_eq_true, if_false, Bool.not_false]
    split_ifs <;> rfl
  · simp [hl]

/-- With the source's `max_retries = 1` the attempt loop runs exactly once:
one GET, no sleep, and the records determined by the first (only) fetch. -/
theorem scrape_page_eval (o : ℕ → FetchResult) :
    scrape_page o = ⟨responseRecords (o 0), 1, []⟩ := by
  unfold scrape_page scrapeLoop responseRecords
  cases h : o 0 with
  | exn => rfl
  | resp status doc =>
    dsimp only
    split_ifs <;> first | rfl | omega

/-- Any sleep the retry machinery would ever perform waits exactly the
source's `retry_delay = 2` seconds. -/
theorem scrapeLoop_sleeps_all_two (o : ℕ → FetchResult) :
    ∀ rem attempt, ∀ d ∈ (scrapeLoop o 2 rem attempt).sleeps, d = 2 := by
  intro rem
  induction rem with
  | zero => intro attempt d hd; simp [scrapeLoop] at hd
  | succ r ih =>
    intro attempt d hd
    unfold scrapeLoop at hd
    cases ho : o attempt <;> simp only [ho] at hd
    · split_ifs at hd with hr
      · simp only [List.mem_cons] at hd
        rcases hd with h2 | h2
        · exact h2
        · exact ih (attempt + 1) d h2
      · simp at hd
    · split_ifs at hd with h403 hr
      · simp only [List.mem_cons] at hd
        rcases hd with h2 | h2
        · exact h2
        · exact ih (attempt + 1) d h2
      all_goals simp at hd

/-- `str.strip` only removes characters: membership is preserved. -/
theorem mem_pyStripL {c : Char} {l : List Char} (h : c ∈ pyStripL l) : c ∈ l := by
  unfold pyStripL at h
  rw [List.mem_reverse] at h
  have h2 := (List.dropWhile_sublist pyIsSpace).subset h
  rw [List.mem_reverse] at h2
  exact (List.dropWhile_sublist pyIsSpace).subset h2

/-- A decimal numeral's value is non-negative. -/
theorem decimalRat_nonneg (i f l : ℕ) : 0 ≤ decimalRat i f l := by
  rw [decimalRat_eq]
  positivity

/-- The mantissa of a float literal is non-negative. -/
theorem pyFloatMantissa_nonneg (cs : List Char) (m : ℚ) (r : List Char)
    (h : pyFloatMantissa cs = some (m, r)) : 0 ≤ m := by
  unfold pyFloatMantissa at h
  repeat' split at h
  all_goals first
    | (simp only [Option.some_inj, Prod.mk.injEq] at h
       rw [← h.1]
       exact decimalRat_nonneg _ _ _)
    | exact absurd h (by simp)

/-- A list that never has the head `'-'` gives the non-negative sign. -/
theorem pySign_fst_false {cs : List Char} (h : ∀ r, cs ≠ '-' :: r) :
    (pySign cs).1 = false := by
  unfold pySign
  split
  · rename_i r
    exact absurd rfl (h r)
  · rfl
  · rfl

/-- `float(s)` yields a non-negative value unless the stripped literal
starts with a minus sign. -/
theorem pyFloat_nonneg_or_minus (s : String) (q : ℚ) (h : pyFloat? s = some q) :
    0 ≤ q ∨ ∃ r, pyStripL s.data = '-' :: r := by
  by_cases hminus : ∃ r, pyStripL s.data = '-' :: r
  · exact Or.inr hminus
  · left
    push_neg at hminus
    have hsg : (pySign (pyStripL s.data)).1 = false := pySign_fst_false hminus
    unfold pyFloat? at h
    simp only [hsg, Bool.false_eq_true, if_false] at h
    split at h
    · exact absurd h (by simp)
    · rename_i m rest hm
      have hm0 := pyFloatMantissa_nonneg _ _ _ hm
      split at h
      · rw [Option.some_inj] at h
        rw [← h]
        exact hm0
      all_goals first
        | (split at h
           · exact absurd h (by simp)
           · rw [Option.some_inj] at h
             rw [← h]
             exact mul_nonneg hm0 (le_of_lt (zpow_pos (by norm_num) _)))
        | exact absurd h (by simp)

/-- Every character of a capture-group candidate is a digit or a dot
(the group pattern is `\d+\.?\d*`). -/
theorem groupCandidates_digitDot (cs : List Char) :
    ∀ gc ∈ groupCandidates cs, ∀ c ∈ gc.1, isDigitDot c = true := by
  intro gc hgc c hc
  unfold groupCandidates at hgc
  try dsimp only at hgc
  obtain ⟨i, hi, hgc2⟩ := List.mem_flatMap.mp hgc
  try dsimp only at hgc2
  obtain ⟨dot, hdot, hgc3⟩ := List.mem_flatMap.mp hgc2
  obtain ⟨j, hj, heq⟩ := List.mem_map.mp hgc3
  rw [← heq] at hc
  try dsimp only at hc
  rw [List.mem_append, List.mem_append] at hc
  have hdots : dot.1 = ['.'] ∨ dot.1 = [] := by
    revert hdot
    split
    · intro hdot
      rcases List.mem_cons.mp hdot with h1 | h1
      · rw [h1]
        exact Or.inl rfl
      · rw [List.mem_singleton.mp h1]
        exact Or.inr rfl
    · intro hdot
      rw [List.mem_singleton.mp hdot]
      exact Or.inr rfl
  rcases hc with (hpre | hdotc) | htake
  · have hmem : c ∈ (takeDigitsL cs).1 := List.take_subset _ _ hpre
    unfold takeDigitsL at hmem
    unfold isDigitDot
    rw [List.mem_takeWhile_imp hmem]
    rfl
  · rcases hdots with hd | hd <;> rw [hd] at hdotc
    · rw [List.mem_singleton.mp hdotc]
      rfl
    · exact absurd hdotc (by simp)
  · have hmem : c ∈ (takeDigitsL dot.2).1 := List.take_subset _ _ htake
    unfold takeDigitsL at hmem
    unfold isDigitDot
    rw [List.mem_takeWhile_imp hmem]
    rfl

/-- The capture group of one match attempt is all digits and dots. -/
theorem matchPriceAt_digitDot (cs g : List Char) (h : matchPriceAt cs = some g) :
    ∀ c ∈ g, isDigitDot c = true := by
  intro c hc
  unfold matchPriceAt at h
  obtain ⟨gc, hfind, hg⟩ := Option.map_eq_some'.mp h
  have hmem := List.mem_of_find?_eq_some hfind
  rw [← hg] at hc
  exact groupCandidates_digitDot _ gc hmem c hc

/-- The capture group `re.search` returns is all digits and dots. -/
theorem rePriceSearch_digitDot :
    ∀ (cs g : List Char), rePriceSearch cs = some g → ∀ c ∈ g, isDigitDot c = true := by
  intro cs
  induction cs with
  | nil => intro g h; exact absurd h (by simp [rePriceSearch])
  | cons c0 rest ih =>
    intro g h
    unfold rePriceSearch at h
    cases hm : matchPriceAt (c0 :: rest) with
    | none =>
      rw [hm, Option.none_orElse] at h
      exact ih g h
    | some g2 =>
      rw [hm, Option.some_orElse, Option.some_inj] at h
      rw [← h]
      exact matchPriceAt_digitDot _ _ hm

/-- Every character of every `re.findall(r'[\d.]+')` run is a digit or a
dot. -/
theorem digitDotRunsAux_digitDot :
    ∀ (cs acc : List Char), (∀ c ∈ acc, isDigitDot c = true) →
      ∀ run ∈ digitDotRunsAux acc cs, ∀ c ∈ run, isDigitDot c = true := by
  intro cs
  induction cs with
  | nil =>
    intro acc hacc run hrun c hc
    unfold digitDotRunsAux at hrun
    split at hrun
    · exact absurd hrun (by simp)
    · rw [List.mem_singleton] at hrun
      rw [hrun] at hc
      exact hacc c (List.mem_reverse.mp hc)
  | cons c0 rest ih =>
    intro acc hacc run hrun c hc
    unfold digitDotRunsAux at hrun
    split at hrun
    · rename_i hdd
      refine ih (c0 :: acc) ?_ run hrun c hc
      intro x hx
      rcases List.mem_cons.mp hx with h1 | h1
      · rw [h1]; exact hdd
      · exact hacc x h1
    · split at hrun
      · exact ih [] (by simp) run hrun c hc
      · rcases List.mem_cons.mp hrun with h1 | h1
        · rw [h1] at hc
          exact hacc c (List.mem_reverse.mp hc)
        · exact ih [] (by simp) run h1 c hc

/-- The normalized price, whenever `convert_price_to_number` returns one,
is non-negative. -/
theorem convert_price_nonneg (s : String) (q : ℚ)
    (h : convert_price_to_number s = some q) : 0 ≤ q := by
  unfold convert_price_to_number at h
  dsimp only at h
  split at h
  · rename_i g hg
    split at hg
    · obtain ⟨q1, hq1, hq⟩ := Option.map_eq_some'.mp h
      have hdd : ∀ c ∈ g, isDigitDot c = true := rePriceSearch_digitDot _ _ hg
      rcases pyFloat_nonneg_or_minus _ _ hq1 with hpos | ⟨r, hr⟩
      · rw [← hq, ratScale_eq]
        positivity
      · have : '-' ∈ g := mem_pyStripL (by rw [hr]; exact List.mem_cons_self _ _)
        exact absurd (hdd '-' this) (by decide)
    · exact absurd hg (by simp)
  · split at h
    · rw [Option.some_inj] at h
      rw [← h]
    · rename_i hne
      rcases pyFloat_nonneg_or_minus _ _ h with hpos | ⟨r, hr⟩
      · exact hpos
      · have hmem : '-' ∈ (digitDotRuns
            (pyReplace (pyStrip s) "," "").data).flatten :=
          mem_pyStripL (by rw [hr]; exact List.mem_cons_self _ _)
        obtain ⟨run, hrun, hcm⟩ := List.mem_flatten.mp hmem
        have := digitDotRunsAux_digitDot _ [] (by simp) run hrun '-' hcm
        exact absurd this (by decide)

/-! ## Concrete fixtures (test pages and listings used by the witnesses) -/

/-- A listing whose price container holds `txt` and nothing else. -/
def sampleNode (txt : String) : ListingNode :=
  { priceContainerEl := some { text := txt, statusPill := none },
    priceEl := none, detailsItems := none, propertyName := none,
    descriptionContainer := none, flatAgentDetail := none, flatDescription := none }

/-- The record `process_listing` produces for `sampleNode "$2.5M"`. -/
def sampleRecord : PyDict :=
  [("Found high-value property:", .str "✓"),
   ("Address:", .str ""),
   ("Price:", .str "$2.5M"),
   ("Price Value", .num 2500000),
   ("Status:", .str "Not Listed For Sale"),
   ("Beds:", .str "None, Baths: None, Sq Ft: None"),
   ("Agent:", .str ""),
   ("Agency:", .str "")]

/-- A page with no listings, no error marker, no pagination. -/
def emptyDoc : PageDoc :=
  { forSale := [], offMarket := [], nosnippet := [], errorContainer := false,
    searchResults := none, pagination := none }

/-- A page with one high-value listing and the given pagination and
search-results elements. -/
def listingDoc (pagination : Option PaginationDiv) (searchResults : Option SearchResults) :
    PageDoc :=
  { forSale := [sampleNode "$2.5M"], offMarket := [], nosnippet := [],
    errorContainer := false, searchResults := searchResults, pagination := pagination }

/-- A page whose search-results marker reads `"Page 1 of 12"`. -/
def docC6 : PageDoc :=
  { forSale := [], offMarket := [], nosnippet := [], errorContainer := false,
    searchResults := some { spanText := some "Page 1 of 12" }, pagination := none }

/-- The loop state at the start of a run with no prior data. -/
def st0 : IterState :=
  { properties := [], outFile := none, backups := [], backupAttempts := 0 }

/-- A run under construction is never lost: with a nonempty accumulator the
run splitter returns at least that run. -/
theorem digitDotRunsAux_ne_nil :
    ∀ (cs acc : List Char), acc ≠ [] → digitDotRunsAux acc cs ≠ [] := by
  intro cs
  induction cs with
  | nil =>
    intro acc hacc
    unfold digitDotRunsAux
    cases acc with
    | nil => exact absurd rfl hacc
    | cons a t => simp
  | cons c rest ih =>
    intro acc hacc
    unfold digitDotRunsAux
    split_ifs with h1 h2
    · exact ih (c :: acc) (List.cons_ne_nil _ _)
    · exact absurd (List.isEmpty_iff.mp h2) hacc
    · exact List.cons_ne_nil _ _

/-- `re.findall(r'[\d.]+')` returns no run exactly when no character of the
text is a digit or a dot. -/
theorem digitDotRuns_nil_no_digitDot :
    ∀ cs : List Char, digitDotRunsAux [] cs = [] → ∀ c ∈ cs, isDigitDot c = false := by
  intro cs
  induction cs with
  | nil => intro _ c hc; exact absurd hc (List.not_mem_nil c)
  | cons c0 rest ih =>
    intro h c hc
    unfold digitDotRunsAux at h
    split_ifs at h with h1 h2
    · exact absurd h (digitDotRunsAux_ne_nil rest [c0] (List.cons_ne_nil _ _))
    · rcases List.mem_cons.mp hc with h3 | h3
      · rw [h3]
        simpa using h1
      · exact ih h c h3

/-- A digit-free text has an empty maximal digit run. -/
theorem takeWhile_digits_nil {cs : List Char} (h : ∀ c ∈ cs, pyIsDigit c = false) :
    cs.takeWhile pyIsDigit = [] := by
  cases cs with
  | nil => rfl
  | cons c rest => simp [List.takeWhile_cons, h c (List.mem_cons_self _ _)]

/-- The capture group `\d+\.?\d*` needs at least one digit: on digit-free
text there is no candidate split. -/
theorem groupCandidates_nil {cs : List Char} (h : ∀ c ∈ cs, pyIsDigit c = false) :
    groupCandidates cs = [] := by
  unfold groupCandidates
  have h1 : (takeDigitsL cs).1 = [] := takeWhile_digits_nil h
  simp [h1]

/-- A match attempt of the million-price pattern fails on digit-free text. -/
theorem matchPriceAt_none :
    ∀ cs : List Char, (∀ c ∈ cs, pyIsDigit c = false) → matchPriceAt cs = none := by
  have key : ∀ l : List Char, (∀ c ∈ l, pyIsDigit c = false) →
      (((groupCandidates (l.dropWhile pyIsSpace)).find?
        (fun gc => mSuffixOk gc.2)).map (fun gc => gc.1) : Option (List Char)) = none := by
    intro l hl
    have hd : ∀ c ∈ l.dropWhile pyIsSpace, pyIsDigit c = false :=
      fun c hc => hl c ((List.dropWhile_sublist _).subset hc)
    rw [groupCandidates_nil hd]
    rfl
  intro cs h
  cases cs with
  | nil => exact key [] (by simp)
  | cons c r =>
    by_cases hc : c ∈ currencyChars
    · have hstep : matchPriceAt (c :: r)
          = ((groupCandidates (r.dropWhile pyIsSpace)).find?
            (fun gc => mSuffixOk gc.2)).map (fun gc => gc.1) := by
        unfold matchPriceAt
        simp [hc]
      rw [hstep]
      exact key r (fun x hx => h x (List.mem_cons_of_mem _ hx))
    · have hstep : matchPriceAt (c :: r)
          = ((groupCandidates ((c :: r).dropWhile pyIsSpace)).find?
            (fun gc => mSuffixOk gc.2)).map (fun gc => gc.1) := by
        unfold matchPriceAt
        simp [hc]
      rw [hstep]
      exact key (c :: r) h

/-- `re.search` of the million-price pattern fails on digit-free text. -/
theorem rePriceSearch_none :
    ∀ cs : List Char, (∀ c ∈ cs, pyIsDigit c = false) → rePriceSearch cs = none := by
  intro cs
  induction cs with
  | nil => intro _; rfl
  | cons c r ih =>
    intro h
    unfold rePriceSearch
    rw [matchPriceAt_none (c :: r) h, ih (fun x hx => h x (List.mem_cons_of_mem _ hx))]
    rfl

/-! ## The claims -/

/-- C1: a listing whose normalized price is below the 1,500,000 threshold
yields no record, and every record that is produced carries a normalized
price of at least 1,500,000 (stored under its `'Price Value'` key). -/
theorem C1_threshold_invariant (node : ListingNode) :
    (∀ q : ℚ, convert_price_to_number (extractPriceStatus node).1 = some q →
      q < 1500000 → process_listing node = none) ∧
    (∀ rec : PyDict, process_listing node = some rec →
      ∃ q : ℚ, convert_price_to_number (extractPriceStatus node).1 = some q ∧
        1500000 ≤ q ∧ ("Price Value", Json.num q) ∈ rec) := by
  constructor
  · intro q hq hlt
    unfold process_listing
    dsimp only
    rw [hq]
    dsimp only
    rw [if_pos hlt]
  · intro rec hrec
    unfold process_listing at hrec
    dsimp only at hrec
    cases hc : convert_price_to_number (extractPriceStatus node).1 with
    | none => rw [hc] at hrec; exact absurd hrec (by simp)
    | some q =>
      rw [hc] at hrec
      dsimp only at hrec
      by_cases hlt : q < 1500000
      · rw [if_pos hlt] at hrec
        exact absurd hrec (by simp)
      · rw [if_neg hlt] at hrec
        refine ⟨q, rfl, le_of_not_lt hlt, ?_⟩
        rw [Option.some_inj] at hrec
        rw [← hrec]
        simp

/-- C1 witness: `"$1.2M"` normalizes to 1,200,000, which is below the
threshold, so the listing is dropped; `"$2.5M"` is above it and its record
carries the value. -/
theorem C1_threshold_invariant_witness :
    convert_price_to_number (extractPriceStatus (sampleNode "$1.2M")).1 = some 1200000 ∧
    (1200000 : ℚ) < 1500000 ∧
    process_listing (sampleNode "$1.2M") = none ∧
    (∃ q : ℚ, convert_price_to_number (extractPriceStatus (sampleNode "$2.5M")).1 = some q ∧
      1500000 ≤ q ∧ ("Price Value", Json.num q) ∈ sampleRecord) :=
  ⟨by decide, by decide,
   (C1_threshold_invariant (sampleNode "$1.2M")).1 1200000 (by decide) (by decide),
   (C1_threshold_invariant (sampleNode "$2.5M")).2 sampleRecord rfl⟩

/-- C2: the normalization maps `"$2.5M"` to 2,500,000, `"1,750,000"` to
1,750,000, and `"Contact Agent"` to 0. -/
theorem C2_normalization_examples :
    convert_price_to_number "$2.5M" = some 2500000 ∧
    convert_price_to_number "1,750,000" = some 1750000 ∧
    convert_price_to_number "Contact Agent" = some 0 :=
  ⟨by decide, by decide, by decide⟩

/-- C3: the fetch loop performs at most one retry (in fact none, since
`max_retries = 1`), any sleep its retry machinery performs waits the fixed
2 seconds, and every non-200 outcome — 403 included — as well as a
network exception yields the empty no-result return instead of raising. -/
theorem C3_fetch_no_result (oracle : ℕ → FetchResult) :
    (scrape_page oracle).sleeps.length ≤ 1 ∧
    (∀ rem attempt : ℕ, ∀ d ∈ (scrapeLoop oracle 2 rem attempt).sleeps, d = 2) ∧
    (∀ (status : ℕ) (doc : PageDoc), oracle 0 = FetchResult.resp status doc →
      status ≠ 200 → (scrape_page oracle).records = []) ∧
    (oracle 0 = FetchResult.exn → (scrape_page oracle).records = []) := by
  refine ⟨?_, scrapeLoop_sleeps_all_two oracle, ?_, ?_⟩
  · rw [scrape_page_eval]
    simp
  · intro status doc h hne
    rw [scrape_page_eval]
    dsimp only
    rw [h]
    unfold responseRecords
    dsimp only
    split_ifs with h1 h2
    all_goals first | rfl | exact absurd hne h2
  · intro h
    rw [scrape_page_eval]
    dsimp only
    rw [h]
    rfl

/-- C3 witness: a 500 response produces the empty result. -/
theorem C3_fetch_no_result_witness :
    (500 : ℕ) ≠ 200 ∧
    (scrape_page (fun _ => FetchResult.resp 500 emptyDoc)).records = [] :=
  ⟨by decide,
   (C3_fetch_no_result (fun _ => FetchResult.resp 500 emptyDoc)).2.2.1 500 emptyDoc rfl
     (by decide)⟩

/-- C4 (amended): every record has exactly the eight keys of the script's
dict literal, in order — including the `'Found high-value property:'`
marker — with the normalized price the single numeric field under
`'Price Value'` and beds/baths/square footage one combined string under
`'Beds:'`, not separate typed fields. -/
theorem C4_record_fields (node : ListingNode) (rec : PyDict)
    (h : process_listing node = some rec) :
    rec.map Prod.fst = ["Found high-value property:", "Address:", "Price:", "Price Value",
      "Status:", "Beds:", "Agent:", "Agency:"] ∧
    (∃ q : ℚ, ("Price Value", Json.num q) ∈ rec) ∧
    (∀ v : Json, ("Beds:", v) ∈ rec → ∃ s : String, v = Json.str s) := by
  unfold process_listing at h
  dsimp only at h
  cases hc : convert_price_to_number (extractPriceStatus node).1 with
  | none => rw [hc] at h; exact absurd h (by simp)
  | some q =>
    rw [hc] at h
    dsimp only at h
    by_cases hlt : q < 1500000
    · rw [if_pos hlt] at h
      exact absurd h (by simp)
    · rw [if_neg hlt] at h
      rw [Option.some_inj] at h
      rw [← h]
      refine ⟨rfl, ⟨q, by simp⟩, ?_⟩
      intro v hv
      simp only [List.mem_cons, Prod.mk.injEq, List.not_mem_nil, or_false] at hv
      rcases hv with h1 | h1 | h1 | h1 | h1 | h1 | h1 | h1 <;>
        first
          | exact absurd h1.1 (by decide)
          | exact ⟨_, h1.2⟩

/-- C4 witness: the record for `"$2.5M"` has exactly the eight keys. -/
theorem C4_record_fields_witness :
    process_listing (sampleNode "$2.5M") = some sampleRecord ∧
    sampleRecord.map Prod.fst = ["Found high-value property:", "Address:", "Price:",
      "Price Value", "Status:", "Beds:", "Agent:", "Agency:"] :=
  ⟨rfl, (C4_record_fields (sampleNode "$2.5M") sampleRecord rfl).1⟩

/-- C4 counterexample to the claimed field list: an actual record has 8
entries, among them a marker entry and one combined `'Beds:'` string, and
no separate baths or square-footage fields. -/
theorem C4_record_fields_counterexample :
    process_listing (sampleNode "$2.5M") = some sampleRecord ∧
    sampleRecord.length = 8 ∧
    ("Found high-value property:", Json.str "✓") ∈ sampleRecord ∧
    ("Beds:", Json.str "None, Baths: None, Sq Ft: None") ∈ sampleRecord ∧
    (∀ kv ∈ sampleRecord, kv.1 ≠ "Baths:" ∧ kv.1 ≠ "Sq Ft:") :=
  ⟨rfl, rfl, by simp [sampleRecord], by simp [sampleRecord], by decide⟩

/-- C5 (amended): one page-loop iteration advances to the next page iff the
body's fetch returned HTTP 200, the page has no error-marker element, at
least one listing was processed into a record, and either a pagination
block with a next-page element is present, or there is no pagination
block, the search-results element is present, and the page index is below
the computed total — the source's no-pagination branch (`if search_results
and page < total_pages`) also requires the search-results element, which
the claim omits. -/
theorem C5_continuation_decision (url : String) (oracle : ℕ → FetchResult) (w b : Bool)
    (page totalPages : ℤ) (st : IterState) :
    (pageIteration url oracle w b page totalPages st).2.2 = IterNext.nextPage ↔
      ∃ doc : PageDoc, oracle 0 = FetchResult.resp 200 doc ∧
        doc.errorContainer = false ∧
        (scrape_page (fun i => oracle (1 + i))).records ≠ [] ∧
        ((∃ pg : PaginationDiv, doc.pagination = some pg ∧ pg.nextPage = true) ∨
         (doc.pagination = none ∧ doc.searchResults.isSome ∧ page < totalPages)) := by
  unfold pageIteration
  cases h0 : oracle 0 with
  | exn => simp
  | resp status doc =>
    by_cases h404 : status = 404
    · subst h404
      simp
    · by_cases h200 : status = 200
      · subst h200
        dsimp only
        rw [if_neg (by decide), if_neg (by decide)]
        by_cases herr : doc.errorContainer
        · simp [herr]
        · by_cases hrec : (scrape_page (fun i => oracle (1 + i))).records = []
          · simp [herr, savePage_snd, hrec]
          · have hsv : (savePage w b st (scrape_page (fun i => oracle (1 + i))).records).2
                = true := by
              rw [savePage_snd]
              cases hx : (scrape_page (fun i => oracle (1 + i))).records
              · exact absurd hx hrec
              · rfl
            cases hpag : doc.pagination with
            | some pg =>
              by_cases hnp : pg.nextPage
              · simp [herr, hsv, hpag, hnp, hrec]
              · simp [herr, hsv, hpag, hnp, hrec]
            | none =>
              by_cases hck : doc.searchResults.isSome ∧ page < totalPages
              · simp [herr, hsv, hpag, hck, hrec]
              · simp [herr, hsv, hpag, hrec, hck]
      · dsimp only
        rw [if_neg h404, if_pos h200]
        simp [h200]

/-- C5 witness: a 200 page with records and a next-page element advances. -/
theorem C5_continuation_decision_witness :
    (pageIteration "u" (fun _ => FetchResult.resp 200 (listingDoc (some ⟨true⟩) none))
        true true 1 5 st0).2.2 = IterNext.nextPage :=
  (C5_continuation_decision "u" (fun _ => FetchResult.resp 200 (listingDoc (some ⟨true⟩) none))
      true true 1 5 st0).mpr
    ⟨listingDoc (some ⟨true⟩) none, rfl, rfl,
     by
       rw [show (scrape_page (fun i =>
           (fun _ => FetchResult.resp 200 (listingDoc (some ⟨true⟩) none)) (1 + i))).records
         = [sampleRecord] from rfl]
       exact List.cons_ne_nil _ _,
     Or.inl ⟨⟨true⟩, rfl, rfl⟩⟩

/-- C5 counterexample to the claimed decision: a 200 page with a record,
no pagination block and no search-results element stops even though the
page index (1) is below the total page count (5), where the claim says it
continues. -/
theorem C5_continuation_decision_counterexample :
    (pageIteration "u" (fun _ => FetchResult.resp 200 (listingDoc none none))
        true true 1 5 st0).2.2 = IterNext.stop ∧
    (listingDoc none none).pagination = none ∧
    (1 : ℤ) < 5 ∧
    (scrape_page (fun _ => FetchResult.resp 200 (listingDoc none none))).records
      = [sampleRecord] := by
  refine ⟨?_, rfl, by decide, rfl⟩
  rw [show (pageIteration "u" (fun _ => FetchResult.resp 200 (listingDoc none none))
      true true 1 5 st0).2.2 = IterNext.stop from rfl]

/-- C6: the total page count comes from splitting the search-results
marker's nested span text on `"of"` and parsing the part after it
(`"Page 1 of 12"` gives 12), and it defaults to 1 — without aborting —
when the fetch is not a 200, the marker or its span is absent, or the
parse fails. -/
theorem C6_total_pages :
    (∀ (doc : PageDoc) (sr : SearchResults) (txt : String) (n : ℤ),
      doc.searchResults = some sr → sr.spanText = some txt →
      parseTotalFromSpan txt = some n →
      computeTotalPages (FetchResult.resp 200 doc) = n) ∧
    parseTotalFromSpan "Page 1 of 12" = some 12 ∧
    (∀ (doc : PageDoc) (sr : SearchResults) (txt : String),
      doc.searchResults = some sr → sr.spanText = some txt →
      parseTotalFromSpan txt = none → computeTotalPages (FetchResult.resp 200 doc) = 1) ∧
    (∀ (doc : PageDoc) (sr : SearchResults),
      doc.searchResults = some sr → sr.spanText = none →
      computeTotalPages (FetchResult.resp 200 doc) = 1) ∧
    (∀ doc : PageDoc, doc.searchResults = none →
      computeTotalPages (FetchResult.resp 200 doc) = 1) ∧
    (∀ (status : ℕ) (doc : PageDoc), status ≠ 200 →
      computeTotalPages (FetchResult.resp status doc) = 1) ∧
    computeTotalPages FetchResult.exn = 1 := by
  refine ⟨?_, by decide, ?_, ?_, ?_, ?_, rfl⟩
  · intro doc sr txt n h1 h2 h3
    simp [computeTotalPages, h1, h2, h3]
  · intro doc sr txt h1 h2 h3
    simp [computeTotalPages, h1, h2, h3]
  · intro doc sr h1 h2
    simp [computeTotalPages, h1, h2]
  · intro doc h1
    simp [computeTotalPages, h1]
  · intro status doc h1
    simp [computeTotalPages, h1]

/-- C6 witness: the marker text `"Page 1 of 12"` yields 12 total pages. -/
theorem C6_total_pages_witness :
    parseTotalFromSpan "Page 1 of 12" = some 12 ∧
    computeTotalPages (FetchResult.resp 200 docC6) = 12 :=
  ⟨by decide,
   C6_total_pages.1 docC6 { spanText := some "Page 1 of 12" } "Page 1 of 12" 12 rfl rfl
     (by decide)⟩

/-- C7 (amended): the normalization function never returns a negative
value, and it returns 0 on every text whose cleaned form has no
digit-or-dot runs (the million-price regex cannot match without a digit,
so such inputs always fall through to the empty-`findall` `return 0`);
but it is not total — joined runs with several decimal points (such as
`"1.2.3"`) make `float` raise `ValueError`, modelled as `none`. -/
theorem C7_normalization_safety :
    (∀ (s : String) (q : ℚ), convert_price_to_number s = some q → 0 ≤ q) ∧
    convert_price_to_number "1.2.3" = none ∧
    (∀ s : String,
      digitDotRuns (pyReplace (pyStrip s) "," "").data = [] →
      convert_price_to_number s = some 0) := by
  refine ⟨convert_price_nonneg, by decide, ?_⟩
  intro s hruns
  have hfree : ∀ c ∈ (pyReplace (pyStrip s) "," "").data, isDigitDot c = false :=
    digitDotRuns_nil_no_digitDot _ hruns
  have hdig : ∀ c ∈ (pyReplace (pyStrip s) "," "").data, pyIsDigit c = false := by
    intro c hc
    have h2 := hfree c hc
    simp only [isDigitDot, Bool.or_eq_false_iff] at h2
    exact h2.1
  have hsearch : rePriceSearch (pyReplace (pyStrip s) "," "").data = none :=
    rePriceSearch_none _ hdig
  unfold convert_price_to_number
  simp [hsearch, hruns]

/-- C7 witness: `"$2.5M"` yields a non-negative value, and the digit-free
`"Make Offer"` — which does contain the letter `m` — yields 0. -/
theorem C7_normalization_safety_witness :
    (0 : ℚ) ≤ 2500000 ∧ convert_price_to_number "Make Offer" = some 0 :=
  ⟨C7_normalization_safety.1 "$2.5M" 2500000 (by decide),
   C7_normalization_safety.2.2 "Make Offer" (by decide)⟩

/-- C7 counterexample to totality: `"1.2.3"` has digit runs, yet the
function raises (`none`) instead of returning a number. -/
theorem C7_normalization_safety_counterexample :
    convert_price_to_number "1.2.3" = none ∧
    (digitDotRuns (pyReplace (pyStrip "1.2.3") "," "").data).isEmpty = false :=
  ⟨by decide, by decide⟩

/-- C8: after a page with at least one record, the records are appended to
the collection and the whole file is rewritten with it; a failed write
attempts one timestamped backup, a failed backup changes no file, and in
every case the body proceeds (continues the run) with the appended
in-memory collection. -/
theorem C8_save_and_continue (w b : Bool) (st : IterState) (ls : List PyDict)
    (h : ls ≠ []) :
    (savePage w b st ls).1.properties = st.properties ++ ls ∧
    (savePage w b st ls).2 = true ∧
    (w = true → (savePage w b st ls).1.outFile = some (st.properties ++ ls)) ∧
    (w = false → (savePage w b st ls).1.outFile = st.outFile ∧
      (savePage w b st ls).1.backupAttempts = st.backupAttempts + 1 ∧
      (b = true → (savePage w b st ls).1.backups = st.backups ++ [st.properties ++ ls]) ∧
      (b = false → (savePage w b st ls).1.backups = st.backups)) := by
  have hne : ls.isEmpty = false := by
    cases ls
    · exact absurd rfl h
    · rfl
  cases w <;> cases b <;> simp [savePage, hne]

/-- C8 witness: a successful write stores the appended collection. -/
theorem C8_save_and_continue_witness :
    ([sampleRecord] : List PyDict) ≠ [] ∧
    (savePage true true st0 [sampleRecord]).1.properties = st0.properties ++ [sampleRecord] :=
  ⟨by simp, (C8_save_and_continue true true st0 [sampleRecord] (by simp)).1⟩

/-- C9: writing any well-formed record collection with the script's
`json.dump(properties, f, ensure_ascii=False, indent=4)` and reloading
the file with `json.load` yields the same records in the same order. -/
theorem C9_persistence_round_trip (rs : List PyDict) (h : recordsWf rs = true) :
    loadRecords (dumpRecords rs) = some (rs.map Json.obj) := by
  unfold loadRecords dumpRecords
  rw [loads_dumps (.arr (rs.map .obj)) h]

/-- C9 witness: a one-record collection survives the round trip. -/
theorem C9_persistence_round_trip_witness :
    recordsWf [sampleRecord] = true ∧
    loadRecords (dumpRecords [sampleRecord]) = some ([sampleRecord].map Json.obj) :=
  ⟨by decide, C9_persistence_round_trip [sampleRecord] (by decide)⟩

/-- C10 (amended): an iteration issues GETs for its page URL only, one or
two of them, and it issues two — the orchestrator's request plus
`scrape_page`'s re-fetch of the identical URL — exactly when the body's
own fetch is a 200 without error marker; every early-breaking iteration
(404, other non-200, exception, or error-marker page) therefore issues
exactly one GET.  When two GETs occur the records come from the second
response while the continuation checks read the first, and when the fetch
is deterministic (the second response equals the first) the records are
exactly the first response's listings. -/
theorem C10_double_fetch (url : String) (oracle : ℕ → FetchResult) (w b : Bool)
    (page totalPages : ℤ) (st : IterState) :
    ((pageIteration url oracle w b page totalPages st).2.1 = [url] ∨
     (pageIteration url oracle w b page totalPages st).2.1 = [url, url]) ∧
    ((pageIteration url oracle w b page totalPages st).2.1 = [url, url] ↔
      ∃ doc : PageDoc, oracle 0 = FetchResult.resp 200 doc ∧ doc.errorContainer = false) ∧
    (∀ doc : PageDoc, oracle 0 = FetchResult.resp 200 doc → doc.errorContainer = false →
      (pageIteration url oracle w b page totalPages st).2.1 = [url, url] ∧
      (scrape_page (fun i => oracle (1 + i))).records = responseRecords (oracle 1)) ∧
    (∀ doc : PageDoc, oracle 1 = oracle 0 → oracle 0 = FetchResult.resp 200 doc →
      (scrape_page (fun i => oracle (1 + i))).records
        = responseRecords (FetchResult.resp 200 doc)) := by
  have hrecs : (scrape_page (fun i => oracle (1 + i))).records = responseRecords (oracle 1) := by
    rw [scrape_page_eval]
  have htwo : ∀ doc : PageDoc, oracle 0 = FetchResult.resp 200 doc →
      doc.errorContainer = false →
      (pageIteration url oracle w b page totalPages st).2.1 = [url, url] := by
    intro doc h0 herr
    unfold pageIteration
    rw [h0]
    dsimp only
    rw [if_neg (by decide), if_neg (by decide), herr, if_neg (by decide)]
    try dsimp only
    rw [scrape_page_eval]
    try dsimp only
    split_ifs <;> cases hpag : doc.pagination <;> simp [hpag] <;> split_ifs <;> rfl
  have hone : (∀ doc : PageDoc, oracle 0 = FetchResult.resp 200 doc →
      doc.errorContainer = true) →
      (pageIteration url oracle w b page totalPages st).2.1 = [url] := by
    intro hmark
    cases h0 : oracle 0 with
    | exn =>
      unfold pageIteration
      rw [h0]
    | resp status doc =>
      by_cases h404 : status = 404
      · unfold pageIteration
        rw [h0]
        dsimp only
        rw [if_pos h404]
      · by_cases h200 : status = 200
        · subst h200
          unfold pageIteration
          rw [h0]
          dsimp only
          rw [if_neg h404, if_neg (by decide), if_pos (hmark doc h0)]
        · unfold pageIteration
          rw [h0]
          dsimp only
          rw [if_neg h404, if_pos h200]
  have hiff : (pageIteration url oracle w b page totalPages st).2.1 = [url, url] ↔
      ∃ doc : PageDoc, oracle 0 = FetchResult.resp 200 doc ∧ doc.errorContainer = false := by
    constructor
    · intro h2
      by_contra hnex
      push_neg at hnex
      have h1 := hone (fun doc h0 => by simpa using hnex doc h0)
      rw [h1] at h2
      exact absurd h2 (by simp)
    · rintro ⟨doc, h0, herr⟩
      exact htwo doc h0 herr
  refine ⟨?_, hiff, fun doc h0 herr => ⟨htwo doc h0 herr, hrecs⟩, ?_⟩
  · by_cases hex : ∃ doc : PageDoc, oracle 0 = FetchResult.resp 200 doc ∧
        doc.errorContainer = false
    · exact Or.inr (hiff.mpr hex)
    · refine Or.inl (hone ?_)
      push_neg at hex
      intro doc h0
      simpa using hex doc h0
  · intro doc h1 h0
    rw [hrecs, h1, h0]

/-- C10 witness: a 200 page without error marker triggers two GETs of the
same URL, and its records come from the follow-up response. -/
theorem C10_double_fetch_witness :
    (pageIteration "u" (fun _ => FetchResult.resp 200 (listingDoc none none))
        true true 1 1 st0).2.1 = ["u", "u"] ∧
    (scrape_page (fun i => (fun _ => FetchResult.resp 200 (listingDoc none none)) (1 + i))).records
      = responseRecords ((fun _ => FetchResult.resp 200 (listingDoc none none)) 1) :=
  (C10_double_fetch "u" (fun _ => FetchResult.resp 200 (listingDoc none none))
      true true 1 1 st0).2.2.1 (listingDoc none none) rfl rfl

/-- C10 counterexample to "two GETs on every iteration": a 404 iteration
issues a single GET. -/
theorem C10_double_fetch_counterexample :
    (pageIteration "u" (fun _ => FetchResult.resp 404 emptyDoc) true true 1 1 st0).2.1
      = ["u"] ∧
    (["u"] : List String).length ≠ 2 :=
  ⟨rfl, by decide⟩
